import Mathlib

/-! Attendance routing: pricing the service calls of one technician on one day.

Shallow embedding of `google-sheets-attendance-routing.js`: the fixed-rate table
(`calculateFullServiceValue` and its two tier schedules) and the route analysis of
`processDailyJobs`, followed by the properties checked against the specification.

JavaScript numbers are IEEE 754 binary64 values.  The finite ones are modelled as exact
rationals and every arithmetic operation rounds its exact result to the nearest binary64
value (ties to even); a non-finite result (`Infinity`, `NaN`) is `none`.
-/

namespace AttendanceRouting

/-! ## JavaScript numbers -/

/-- Nearest integer to `y`, a tie going to the even neighbour. -/
def roundHalfEven (y : ℚ) : ℤ :=
  if y - ⌊y⌋ < 1 / 2 then ⌊y⌋
  else if 1 / 2 < y - ⌊y⌋ then ⌊y⌋ + 1
  else if ⌊y⌋ % 2 = 0 then ⌊y⌋ else ⌊y⌋ + 1

/-- Exponent of the unit in the last place of the binary64 binade that holds `x > 0`:
a 53-bit significand, and the fixed spacing `2 ^ (-1074)` below the smallest normal number. -/
def ulpExponent (x : ℚ) : ℤ := max (Int.log 2 x) (-1022) - 52

/-- Round-to-nearest-even of a positive rational onto the binary64 grid (exponent unbounded
above). -/
def roundPos (x : ℚ) : ℚ := (roundHalfEven (x / 2 ^ ulpExponent x) : ℚ) * 2 ^ ulpExponent x

/-- Round-to-nearest-even of any rational onto the binary64 grid, before the overflow test. -/
def roundFinite (x : ℚ) : ℚ :=
  if 0 < x then roundPos x else if x < 0 then -roundPos (-x) else 0

/-- Largest finite binary64 value, `Number.MAX_VALUE`. -/
def maxFinite : ℚ := (2 ^ 53 - 1) * 2 ^ 971

/-- Binary64 result of an operation whose exact value is `x`: the rounded value, or `none`
when the rounded magnitude exceeds `Number.MAX_VALUE` (the operation overflows to an
infinity). -/
def roundBinary64 (x : ℚ) : Option ℚ :=
  if |roundFinite x| ≤ maxFinite then some (roundFinite x) else none

/-- JavaScript `x + y` on finite numbers. -/
def jsAdd (x y : ℚ) : Option ℚ := roundBinary64 (x + y)

/-- JavaScript `x - y` on finite numbers. -/
def jsSub (x y : ℚ) : Option ℚ := roundBinary64 (x - y)

/-- JavaScript `x / y` on finite numbers; dividing by zero gives an infinity or `NaN`. -/
def jsDiv (x y : ℚ) : Option ℚ := if y = 0 then none else roundBinary64 (x / y)

/-! ## JavaScript strings -/

/-- Code points removed by `String.prototype.trim`: ECMAScript `WhiteSpace` and
`LineTerminator`. -/
def isWhiteSpace (c : Char) : Bool :=
  c.toNat ∈ [0x09, 0x0A, 0x0B, 0x0C, 0x0D, 0x20, 0xA0, 0x1680, 0x2028, 0x2029, 0x202F,
    0x205F, 0x3000, 0xFEFF] || (0x2000 ≤ c.toNat && c.toNat ≤ 0x200A)

/-- `String.prototype.trim`: drops leading and trailing white space. -/
def trim (s : String) : String :=
  ⟨((s.data.dropWhile isWhiteSpace).reverse.dropWhile isWhiteSpace).reverse⟩

/-- Upper-casing of the ASCII letters a to z, every other character unchanged. It is the host
`String.prototype.toUpperCase` on every string whose characters are ASCII or are their own
upper-case mapping, and only such strings are given to it here; the host also maps letters
outside ASCII, for example U+0131 to I and U+017F to S. The pricing functions take the
upper-casing function as a parameter, so their properties hold for the host function. -/
def asciiToUpperCase (s : String) : String := ⟨s.data.map Char.toUpper⟩

/-- A case conversion that maps every code point on its own, the shape of the host
`toUpperCase`, which applies the Unicode upper-case mapping to each code point. -/
def mapCodePoints (mapping : Char → List Char) (s : String) : String :=
  ⟨s.data.flatMap mapping⟩

/-- The name MARKHAM written with U+212A KELVIN SIGN in place of the letter K. The host
`toUpperCase` leaves it unchanged, as `asciiToUpperCase` does. -/
def kelvinMarkham : String := ⟨['M', 'A', 'R', Char.ofNat 0x212A, 'H', 'A', 'M']⟩

/-- Lower-casing of ASCII letters and of U+212A KELVIN SIGN, which the host `toLowerCase` maps
to the letter k; it agrees with the host on every string made of ASCII characters and
U+212A. -/
def kelvinToLowerCase (s : String) : String :=
  ⟨s.data.map fun c => if c = Char.ofNat 0x212A then 'k' else c.toLower⟩

/-! ## Configuration -/

/-- Keyword in the notes column that triggers SVD pricing. -/
def SVD_KEYWORD : String := "SVD"

/-- Base city used as origin of the route. -/
def BASE_CITY : String := "Toronto"

/-! ## Fixed-rate table -/

/-- What the script writes into the value column: a price or an error message. -/
inductive Value
  | number (n : ℕ)
  | text (s : String)
  deriving DecidableEq, Repr

/-- Reference distances in kilometres from the base city, keyed by normalised city name.
The keys a lookup receives are upper-cased, so no inherited property name of the host
object can be hit and the own entries are the whole table. -/
def DISTANCES : List (String × ℚ) :=
  [("TORONTO", 1), ("MISSISSAUGA", 30), ("BRAMPTON", 45), ("HAMILTON", 70), ("OSHAWA", 60),
    ("SCARBOROUGH", 20), ("MARKHAM", 35)]

/-- Standard pricing tier. -/
def calculateStandardValue (km : ℚ) : Value :=
  if km ≤ 50 then .number 140 else if km ≤ 100 then .number 260
  else if km ≤ 150 then .number 270 else if km ≤ 200 then .number 364
  else if km ≤ 250 then .number 374 else if km ≤ 300 then .number 384
  else if km ≤ 350 then .number 540 else if km ≤ 400 then .number 550
  else .text "Outside rate table"

/-- SVD pricing tier. -/
def calculateSvdValue (km : ℚ) : Value :=
  if km ≤ 50 then .number 290 else if km ≤ 100 then .number 384
  else if km ≤ 150 then .number 395 else if km ≤ 200 then .number 560
  else if km ≤ 250 then .number 572 else if km ≤ 300 then .number 580
  else if km ≤ 350 then .number 590 else if km ≤ 400 then .number 600
  else .text "Outside rate table"

/-- Full service value of a city from the internal distance table and the SVD status of the
notes. -/
def calculateFullServiceValue (toUpperCase : String → String) (city notes : String) : Value :=
  let isSVD := trim (toUpperCase notes) = SVD_KEYWORD
  let cityKey := trim (toUpperCase city)
  match DISTANCES.lookup cityKey with
  | none => .text "City not in fixed rate table"
  | some distanceKm => if isSVD then calculateSvdValue distanceKm
      else calculateStandardValue distanceKm

/-! ## Route analysis -/

/-- A service call of the day: sheet row, city (already trimmed) and notes (as text). -/
structure Job where
  row : ℕ
  city : String
  notes : String
  deriving DecidableEq, Repr

/-- A job together with the driving distance in metres from the base city to its city. -/
structure JobWithDistance extends Job where
  distanceFromBase : ℕ
  deriving DecidableEq, Repr

/-- Observable steps of a run, in program order. -/
inductive Effect
  /-- A call `getMapsDistance(origin, destination)`. -/
  | getMapsDistance (origin destination : String)
  /-- An evaluation of `… / furthestJob.distanceFromBase` with the given divisor. -/
  | divide (divisor : ℕ)
  /-- A write `sheet.getRange(row, COL.VALUE).setValue(value)`. -/
  | setValue (row : ℕ) (value : Value)
  deriving DecidableEq, Repr

/-- Position of `a` in a list already ordered by the comparator
`(a, b) => b.distanceFromBase - a.distanceFromBase`: before the first element that is not
strictly further from the base. -/
def insertByDistance (a : JobWithDistance) : List JobWithDistance → List JobWithDistance
  | [] => [a]
  | b :: l => if b.distanceFromBase ≤ a.distanceFromBase then a :: b :: l
      else b :: insertByDistance a l

/-- `Array.prototype.sort` with the comparator
`(a, b) => b.distanceFromBase - a.distanceFromBase`: descending distance, and stable, so
jobs at equal distance keep their sheet order. -/
def sortByDistance : List JobWithDistance → List JobWithDistance
  | [] => []
  | a :: l => insertByDistance a (sortByDistance l)

/-- The expression `((distBaseToIntermediate + distIntermediateToFurthest) /
furthestJob.distanceFromBase) - 1`, evaluated in binary64. -/
def detourPercentage (distBaseToIntermediate distIntermediateToFurthest furthest : ℕ) :
    Option ℚ :=
  (jsAdd distBaseToIntermediate distIntermediateToFurthest).bind fun total =>
    (jsDiv total furthest).bind fun quotient => jsSub quotient 1

/-- The test `detourPercentage < 0.25 && detourPercentage >= -0.05`; the literal `0.25` is
exact and `-0.05` is the negated binary64 value of `0.05`.  Both comparisons are false on a
non-finite operand that is not `-Infinity`, and the second is false on `-Infinity`. -/
def isOnRoute (detour : Option ℚ) : Bool :=
  match detour with
  | some p => decide (p < 1 / 4) && decide (-roundFinite (1 / 20) ≤ p)
  | none => false

/-- Flat value of a job that lies on the route to the furthest city. -/
def minimumValue (toUpperCase : String → String) (notes : String) : Value :=
  if trim (toUpperCase notes) = SVD_KEYWORD then .number 290 else .number 140

/-- One iteration of the pricing loop for `currentJob`, given the furthest job. -/
def priceJob (toUpperCase : String → String) (getMapsDistance : String → String → ℕ)
    (furthestJob currentJob : JobWithDistance) : List Effect :=
  if currentJob.row = furthestJob.row then
    [.setValue currentJob.row (calculateFullServiceValue toUpperCase currentJob.city
      currentJob.notes)]
  else
    .getMapsDistance currentJob.city furthestJob.city ::
      if furthestJob.distanceFromBase = 0 ∨ 999999990 ≤ furthestJob.distanceFromBase then
        [.setValue currentJob.row (calculateFullServiceValue toUpperCase currentJob.city
          currentJob.notes)]
      else
        [.divide furthestJob.distanceFromBase,
          .setValue currentJob.row
            (if isOnRoute (detourPercentage currentJob.distanceFromBase
                (getMapsDistance currentJob.city furthestJob.city)
                furthestJob.distanceFromBase)
              then minimumValue toUpperCase currentJob.notes
              else calculateFullServiceValue toUpperCase currentJob.city currentJob.notes)]

/-- The record `{ ...job, distanceFromBase: getMapsDistance(BASE_CITY, job.city) }`. -/
def withDistance (getMapsDistance : String → String → ℕ) (job : Job) : JobWithDistance :=
  { toJob := job, distanceFromBase := getMapsDistance BASE_CITY job.city }

/-- The array `jobsWithDistances` after the in-place sort. -/
def jobsWithDistances (getMapsDistance : String → String → ℕ) (jobsOfTheDay : List Job) :
    List JobWithDistance :=
  sortByDistance (jobsOfTheDay.map (withDistance getMapsDistance))

/-- The job `furthestJob`: first element of the sorted array. -/
def furthestJob (getMapsDistance : String → String → ℕ) (jobsOfTheDay : List Job) :
    Option JobWithDistance :=
  (jobsWithDistances getMapsDistance jobsOfTheDay).head?

/-- The part of `processDailyJobs` that follows the collection of `jobsOfTheDay`, for a run
with a configured API key: the trace of distance queries, divisions and value writes.
`getMapsDistance` gives the distance in metres each query returns. -/
def processDailyJobs (toUpperCase : String → String) (getMapsDistance : String → String → ℕ)
    (jobsOfTheDay : List Job) : List Effect :=
  match jobsOfTheDay with
  | [] => []
  | [singleJob] =>
    [.setValue singleJob.row (calculateFullServiceValue toUpperCase singleJob.city
      singleJob.notes)]
  | _ =>
    match furthestJob getMapsDistance jobsOfTheDay with
    | none => jobsOfTheDay.map fun job => .getMapsDistance BASE_CITY job.city
    | some furthest =>
      (jobsOfTheDay.map fun job => Effect.getMapsDistance BASE_CITY job.city) ++
        (jobsWithDistances getMapsDistance jobsOfTheDay).flatMap
          (priceJob toUpperCase getMapsDistance furthest)


/-! ## The rate schedule in the words of the specification -/

/-- Thresholds in kilometres shared by both tiers, in ascending order. -/
def thresholds : List ℚ := [50, 100, 150, 200, 250, 300, 350, 400]

/-- Standard-tier price attached to each threshold. -/
def standardSchedule : List (ℚ × ℕ) :=
  [(50, 140), (100, 260), (150, 270), (200, 364), (250, 374), (300, 384), (350, 540),
    (400, 550)]

/-- SVD-tier price attached to each threshold. -/
def svdSchedule : List (ℚ × ℕ) :=
  [(50, 290), (100, 384), (150, 395), (200, 560), (250, 572), (300, 580), (350, 590),
    (400, 600)]

/-- Specification of the price lookup: the price attached to the first threshold of the
ascending schedule that covers the distance, and the out-of-range tag when none does. -/
def specPrice (schedule : List (ℚ × ℕ)) (km : ℚ) : Value :=
  match schedule.find? fun entry => decide (km ≤ entry.1) with
  | some entry => .number entry.2
  | none => .text "Outside rate table"

/-! ## Example day plans -/

/-- Two normal-tier jobs of one technician: Oshawa on row 4 and Hamilton on row 5. -/
def examplePlan : List Job := [⟨4, "Oshawa", ""⟩, ⟨5, "Hamilton", ""⟩]

/-- Distances of the worked example: Oshawa 10,000 m and Hamilton 40,000 m from the base,
32,000 m from Oshawa to Hamilton; every other query fails. -/
def exampleDistance (origin destination : String) : ℕ :=
  if origin = "Toronto" ∧ destination = "Oshawa" then 10000
  else if origin = "Toronto" ∧ destination = "Hamilton" then 40000
  else if origin = "Oshawa" ∧ destination = "Hamilton" then 32000
  else 999999999

/-- The same base distances with a leg of 28,000 m from Oshawa to Hamilton, so that the
exact detour ratio is `(10000 + 28000) / 40000 - 1 = -0.05`. -/
def boundaryDistance (origin destination : String) : ℕ :=
  if origin = "Toronto" ∧ destination = "Oshawa" then 10000
  else if origin = "Toronto" ∧ destination = "Hamilton" then 40000
  else if origin = "Oshawa" ∧ destination = "Hamilton" then 28000
  else 999999999

/-- The same base distances with a leg of 40,000 m from Oshawa to Hamilton, so that the
exact detour ratio is `(10000 + 40000) / 40000 - 1 = 0.25`. -/
def quarterDistance (origin destination : String) : ℕ :=
  if origin = "Toronto" ∧ destination = "Oshawa" then 10000
  else if origin = "Toronto" ∧ destination = "Hamilton" then 40000
  else if origin = "Oshawa" ∧ destination = "Hamilton" then 40000
  else 999999999

/-- A routing service that fails on every query. -/
def failingDistance (_origin _destination : String) : ℕ := 999999999

/-- The base distances of the worked example with a failing query from Oshawa to
Hamilton. -/
def failedLegDistance (origin destination : String) : ℕ :=
  if origin = "Toronto" ∧ destination = "Oshawa" then 10000
  else if origin = "Toronto" ∧ destination = "Hamilton" then 40000
  else 999999999

/-- A furthest job at 900,000,000 m from the base, below the test value 999999990, with a
failing query from Oshawa to Hamilton. -/
def farDistance (origin destination : String) : ℕ :=
  if origin = "Toronto" ∧ destination = "Oshawa" then 10000
  else if origin = "Toronto" ∧ destination = "Hamilton" then 900000000
  else 999999999

/-- A failing base query for Oshawa next to a base distance of 1,500,000,000 m for
Hamilton. -/
def overSentinelDistance (origin destination : String) : ℕ :=
  if origin = "Toronto" ∧ destination = "Hamilton" then 1500000000
  else 999999999

/-! ## The distance lookup -/

/-- An entry of the script cache: the distance whose decimal text is stored, and the time in
seconds at which the entry expires.  `Number(n.toString())` is `n`, and the stored text is
never empty, so a stored entry is always truthy and reads back as the number put. -/
structure CacheEntry where
  value : ℕ
  expiresAt : ℕ
  deriving DecidableEq, Repr

/-- The script cache as a list of keyed entries, the most recent `put` first.  Its `get` and
`put` are taken to be total, as the specification describes the store. -/
abbrev Cache := List (String × CacheEntry)

/-- The call `cache.get(key)` at time `now`: the value of the newest entry under the key if it
has not expired. -/
def cacheGet (cache : Cache) (now : ℕ) (key : String) : Option ℕ :=
  match cache.lookup key with
  | some entry => if now < entry.expiresAt then some entry.value else none
  | none => none

/-- The call `cache.put(key, value, expirationInSeconds)` at time `now`. -/
def cachePut (cache : Cache) (now : ℕ) (key : String) (value expirationInSeconds : ℕ) :
    Cache :=
  (key, ⟨value, now + expirationInSeconds⟩) :: cache

/-- Characters outside the class `[^a-zA-Z0-9_.-]`, which the sanitising pattern keeps. -/
def isKeyChar (c : Char) : Bool :=
  c.isAlphanum || c = '_' || c = '.' || c = '-'

/-- Replacement of one character by the global pattern: a kept character stays, any other
UTF-16 code unit becomes an underscore (two for a character outside the basic plane). -/
def sanitize (c : Char) : List Char :=
  if isKeyChar c then [c] else if c.toNat < 0x10000 then ['_'] else ['_', '_']

/-- The cache key: the template `dist_${origin}_${destination}` with every code unit outside
`[a-zA-Z0-9_.-]` replaced by an underscore. -/
def cacheKey (origin destination : String) : String :=
  ⟨("dist_" ++ origin ++ "_" ++ destination).data.flatMap sanitize⟩

/-- What the body of a response with code 200 yields inside the `try` block. -/
inductive ResponseBody
  /-- Parsing the body or reading `data.routes[0].distanceMeters` throws. -/
  | unreadable
  /-- No `routes`, an empty `routes`, or no `distanceMeters` in the first route. -/
  | noRoute
  /-- A first route carrying `distanceMeters`. -/
  | route (distanceMeters : ℕ)
  deriving DecidableEq, Repr

/-- Outcome of `UrlFetchApp.fetch` on the routing service. -/
inductive FetchOutcome
  /-- The request throws. -/
  | throws
  /-- The request returns a response with the given code and body. -/
  | response (responseCode : ℕ) (body : ResponseBody)
  deriving DecidableEq, Repr

/-- Result of one call of `getMapsDistance`: the number returned, the cache afterwards and
the external requests issued. -/
structure LookupResult where
  distance : ℕ
  cache : Cache
  requests : List (String × String)
  deriving DecidableEq, Repr

/-- The `try` block of `getMapsDistance`: the returned number and the cache afterwards, or the
exception handed to the `catch` clause. -/
def tryFetch (fetch : String → String → FetchOutcome) (now : ℕ) (cache : Cache)
    (origin destination : String) : Except String (ℕ × Cache) :=
  match fetch origin destination with
  | .throws => .error "request failed"
  | .response responseCode body =>
    if responseCode = 200 then
      match body with
      | .unreadable => .error "unreadable response"
      | .noRoute => .ok (999999999, cache)
      | .route distanceMeters =>
        .ok (distanceMeters,
          cachePut cache now (cacheKey origin destination) distanceMeters 21600)
    else .ok (999999999, cache)

/-- Driving distance in metres between two locations, cached for 6 hours; a large number on
any error.  `fetch` is the outcome the routing service gives to a request and `now` the time
of the call in seconds. -/
def getMapsDistance (fetch : String → String → FetchOutcome) (now : ℕ) (cache : Cache)
    (origin destination : String) : LookupResult :=
  if origin = "" ∨ destination = "" then ⟨999999999, cache, []⟩
  else
    match cacheGet cache now (cacheKey origin destination) with
    | some cachedDistance => ⟨cachedDistance, cache, []⟩
    | none =>
      match tryFetch fetch now cache origin destination with
      | .ok (distance, stored) => ⟨distance, stored, [(origin, destination)]⟩
      | .error _ => ⟨999999999, cache, [(origin, destination)]⟩

/-- A routing service that answers every request with a route of the given length. -/
def routeOf (distanceMeters : ℕ) (_origin _destination : String) : FetchOutcome :=
  .response 200 (.route distanceMeters)

/-- A routing service that knows two destinations. -/
def twoCityService (_origin destination : String) : FetchOutcome :=
  if destination = "Москва" then .response 200 (.route 717000)
  else if destination = "Казань" then .response 200 (.route 1535000)
  else .response 404 .noRoute

/-! ## The jobs of the day -/

/-- A cell value as `getValues()` returns it. -/
inductive CellValue
  | text (s : String)
  | number (x : ℚ)
  | boolean (b : Bool)
  | date (time : ℤ)
  deriving DecidableEq, Repr

/-- The cells of a sheet row that the script reads: columns C, D, F and G. -/
structure SheetRow where
  city : CellValue
  date : CellValue
  notes : CellValue
  technician : CellValue
  deriving DecidableEq, Repr

/-- JavaScript truthiness of a cell value. -/
def truthy : CellValue → Bool
  | .text s => decide (s ≠ "")
  | .number x => decide (x ≠ 0)
  | .boolean b => b
  | .date _ => true

/-- The comparison `a === b` of two cell values. Primitives compare by type and value; two
`Date` objects are equal only when they are the same object, that is the same cell. -/
def strictEquals (sameCell : Bool) : CellValue → CellValue → Bool
  | .text s, .text t => decide (s = t)
  | .number x, .number y => decide (x = y)
  | .boolean a, .boolean b => decide (a = b)
  | .date _, .date _ => sameCell
  | _, _ => false

/-- The array `jobsOfTheDay`: the rows of `allSheetData`, with their index, whose technician
is strictly equal to the target technician and whose date is valid with the target date
string, each turned into a job. `toText` is the host `toString()` of a cell value and
`toDateString` gives `new Date(v).toDateString()`, or `none` when `new Date(v)` is invalid.
The target technician is the cell of row `editedRow`, so a row is the same cell exactly when
its row number `index + 1` is `editedRow`. -/
def jobsOfTheDay (toText : CellValue → String) (toDateString : CellValue → Option String)
    (allSheetData : List SheetRow) (editedRow : ℕ) (targetTechnician : CellValue)
    (targetDateString : String) : List Job :=
  (allSheetData.enum.filter fun item =>
      strictEquals (decide (item.1 + 1 = editedRow)) item.2.technician targetTechnician &&
        decide (toDateString item.2.date = some targetDateString)).map fun item =>
    { row := item.1 + 1, city := trim (toText item.2.city), notes := toText item.2.notes }

/-- The whole of `processDailyJobs(sheet, editedRow)` for a script whose `API_KEY` constant is
`apiKey`: the key check, the reading of the edited row, the validity check of technician and
date, the collection of the jobs of the day and their pricing. For `editedRow = 0` the index
`editedRow - 1` is -1, and for a row beyond the data the index is out of range: the row read
is `undefined`, reading its date cell throws and nothing is written. -/
def processEditedRow (apiKey : String) (toUpperCase : String → String)
    (toText : CellValue → String) (toDateString : CellValue → Option String)
    (getMapsDistance : String → String → ℕ) (allSheetData : List SheetRow)
    (editedRow : ℕ) : List Effect :=
  if apiKey = "PASTE_YOUR_API_KEY_HERE" ∨ trim apiKey = "" then
    [.setValue editedRow (.text "ERROR: API Key not configured.")]
  else if editedRow = 0 then []
  else
    match allSheetData[editedRow - 1]? with
    | none => []
    | some editedRowData =>
      match truthy editedRowData.technician, toDateString editedRowData.date with
      | true, some targetDateString =>
        processDailyJobs toUpperCase getMapsDistance
          (jobsOfTheDay toText toDateString allSheetData editedRow editedRowData.technician
            targetDateString)
      | _, _ => []

/-- Text of a cell holding text; other cells are not used by the examples. -/
def exampleText : CellValue → String
  | .text s => s
  | _ => ""

/-- Date string of a `Date` cell in the examples: the day number, at 86,400,000 ms a day. -/
def exampleDateString : CellValue → Option String
  | .date time => some (toString (time / 86400000))
  | _ => none

/-- A sheet with three header rows and four jobs; rows 4 and 6 belong to Ana on day 20000. -/
def exampleSheet : List SheetRow :=
  [⟨.text "City", .text "Date", .text "Notes", .text "Technician"⟩,
    ⟨.text "", .text "", .text "", .text ""⟩,
    ⟨.text "", .text "", .text "", .text ""⟩,
    ⟨.text " Oshawa ", .date 1728000000000, .text "", .text "Ana"⟩,
    ⟨.text "Markham", .date 1728000000000, .text "SVD", .text "Bo"⟩,
    ⟨.text "Hamilton", .date 1728030000000, .text "", .text "Ana"⟩,
    ⟨.text "Brampton", .date 1728090000000, .text "", .text "Ana"⟩]

/-- The example sheet with the number 0 as technician of the rows 4 and 6. -/
def zeroTechnicianSheet : List SheetRow :=
  [⟨.text "City", .text "Date", .text "Notes", .text "Technician"⟩,
    ⟨.text "", .text "", .text "", .text ""⟩,
    ⟨.text "", .text "", .text "", .text ""⟩,
    ⟨.text " Oshawa ", .date 1728000000000, .text "", .number 0⟩,
    ⟨.text "Markham", .date 1728000000000, .text "SVD", .text "Bo"⟩,
    ⟨.text "Hamilton", .date 1728030000000, .text "", .number 0⟩,
    ⟨.text "Brampton", .date 1728090000000, .text "", .text "Ana"⟩]

/-! ## Rounding lemmas -/

theorem floor_le_roundHalfEven (y : ℚ) : ⌊y⌋ ≤ roundHalfEven y := by
  unfold roundHalfEven; split_ifs <;> omega

theorem roundHalfEven_le_floor_succ (y : ℚ) : roundHalfEven y ≤ ⌊y⌋ + 1 := by
  unfold roundHalfEven; split_ifs <;> omega

theorem roundHalfEven_intCast (n : ℤ) : roundHalfEven (n : ℚ) = n := by
  unfold roundHalfEven; simp

theorem roundHalfEven_mono {y z : ℚ} (h : y ≤ z) : roundHalfEven y ≤ roundHalfEven z := by
  have hf : ⌊y⌋ ≤ ⌊z⌋ := Int.floor_mono h
  rcases hf.lt_or_eq with hlt | heq
  · calc roundHalfEven y ≤ ⌊y⌋ + 1 := roundHalfEven_le_floor_succ y
      _ ≤ ⌊z⌋ := hlt
      _ ≤ roundHalfEven z := floor_le_roundHalfEven z
  · unfold roundHalfEven
    rw [← heq]
    split_ifs <;> first | omega | (exfalso; linarith)

theorem roundHalfEven_of_lt_half {y : ℚ} {n : ℤ} (h1 : (n : ℚ) ≤ y) (h2 : y < n + 1 / 2) :
    roundHalfEven y = n := by
  have hf : ⌊y⌋ = n := by
    rw [Int.floor_eq_iff]; constructor <;> linarith
  unfold roundHalfEven
  rw [hf, if_pos (by linarith)]

theorem roundHalfEven_of_gt_half {y : ℚ} {n : ℤ} (h1 : (n : ℚ) + 1 / 2 < y) (h2 : y < n + 1) :
    roundHalfEven y = n + 1 := by
  have hf : ⌊y⌋ = n := by
    rw [Int.floor_eq_iff]; constructor <;> linarith
  unfold roundHalfEven
  rw [hf, if_neg (by linarith), if_pos (by linarith)]

theorem ulpExponent_mono {x y : ℚ} (hx : 0 < x) (h : x ≤ y) : ulpExponent x ≤ ulpExponent y := by
  unfold ulpExponent
  have := Int.log_mono_right (b := 2) hx h
  omega

theorem two_zpow_pos (k : ℤ) : (0 : ℚ) < 2 ^ k := zpow_pos (by norm_num) k

theorem ulpExponent_eq {x : ℚ} {k : ℤ} (hk : -1022 ≤ k) (h1 : (2 : ℚ) ^ k ≤ x)
    (h2 : x < 2 ^ (k + 1)) : ulpExponent x = k - 52 := by
  have hx : 0 < x := lt_of_lt_of_le (two_zpow_pos k) h1
  have hlog : Int.log 2 x = k := by
    apply le_antisymm
    · have := (Int.lt_zpow_iff_log_lt (b := 2) (by norm_num) hx).1 (by exact_mod_cast h2)
      omega
    · exact (Int.zpow_le_iff_le_log (b := 2) (by norm_num) hx).1 (by exact_mod_cast h1)
  unfold ulpExponent
  rw [hlog]; omega


theorem two_zpow_le {m n : ℤ} (h : m ≤ n) : (2 : ℚ) ^ m ≤ 2 ^ n :=
  zpow_le_zpow_right₀ (by norm_num) h

theorem two_zpow_add (m n : ℤ) : (2 : ℚ) ^ (m + n) = 2 ^ m * 2 ^ n :=
  zpow_add₀ (by norm_num) m n

theorem roundPos_nonneg {x : ℚ} (hx : 0 < x) : 0 ≤ roundPos x := by
  unfold roundPos
  have h0 : (0 : ℚ) ≤ x / 2 ^ ulpExponent x := le_of_lt (div_pos hx (two_zpow_pos _))
  have h1 : (0 : ℤ) ≤ roundHalfEven (x / 2 ^ ulpExponent x) :=
    le_trans (Int.floor_nonneg.2 h0) (floor_le_roundHalfEven _)
  exact mul_nonneg (by exact_mod_cast h1) (le_of_lt (two_zpow_pos _))

theorem roundPos_le_binade_top (x : ℚ) :
    roundPos x ≤ 2 ^ (ulpExponent x + 53) := by
  have hlt : x < 2 ^ (ulpExponent x + 53) := by
    have h1 : x < ((2 : ℕ) : ℚ) ^ (Int.log 2 x + 1) := Int.lt_zpow_succ_log_self (by norm_num) x
    have h2 : (2 : ℚ) ^ (Int.log 2 x + 1) ≤ 2 ^ (ulpExponent x + 53) :=
      two_zpow_le (by unfold ulpExponent; omega)
    exact lt_of_lt_of_le (by exact_mod_cast h1) h2
  have hdiv : x / 2 ^ ulpExponent x ≤ ((2 ^ 53 : ℤ) : ℚ) := by
    rw [div_le_iff₀ (two_zpow_pos _)]
    have : (2 : ℚ) ^ (ulpExponent x + 53) = ((2 ^ 53 : ℤ) : ℚ) * 2 ^ ulpExponent x := by
      rw [add_comm, two_zpow_add]; norm_num
    linarith
  have hr : roundHalfEven (x / 2 ^ ulpExponent x) ≤ 2 ^ 53 := by
    have := roundHalfEven_mono hdiv
    rwa [roundHalfEven_intCast] at this
  unfold roundPos
  have hq : ((roundHalfEven (x / 2 ^ ulpExponent x) : ℤ) : ℚ) ≤ 2 ^ 53 := by exact_mod_cast hr
  calc (roundHalfEven (x / 2 ^ ulpExponent x) : ℚ) * 2 ^ ulpExponent x
      ≤ 2 ^ 53 * 2 ^ ulpExponent x := mul_le_mul_of_nonneg_right hq (le_of_lt (two_zpow_pos _))
    _ = 2 ^ (ulpExponent x + 53) := by rw [add_comm, two_zpow_add]; norm_num

theorem binade_bottom_le_roundPos {x : ℚ} (hx : 0 < x) (hn : -1022 ≤ Int.log 2 x) :
    (2 : ℚ) ^ (ulpExponent x + 52) ≤ roundPos x := by
  have he : ulpExponent x + 52 = Int.log 2 x := by unfold ulpExponent; omega
  have hle : (2 : ℚ) ^ (ulpExponent x + 52) ≤ x := by
    rw [he]
    have := Int.zpow_log_le_self (b := 2) (by norm_num) hx
    exact_mod_cast this
  have hdiv : ((2 ^ 52 : ℤ) : ℚ) ≤ x / 2 ^ ulpExponent x := by
    rw [le_div_iff₀ (two_zpow_pos _)]
    have : (2 : ℚ) ^ (ulpExponent x + 52) = ((2 ^ 52 : ℤ) : ℚ) * 2 ^ ulpExponent x := by
      rw [add_comm, two_zpow_add]; norm_num
    linarith
  have hr : 2 ^ 52 ≤ roundHalfEven (x / 2 ^ ulpExponent x) := by
    have := roundHalfEven_mono hdiv
    rwa [roundHalfEven_intCast] at this
  unfold roundPos
  have hq : (2 : ℚ) ^ 52 ≤ ((roundHalfEven (x / 2 ^ ulpExponent x) : ℤ) : ℚ) := by exact_mod_cast hr
  calc (2 : ℚ) ^ (ulpExponent x + 52) = 2 ^ 52 * 2 ^ ulpExponent x := by
        rw [add_comm, two_zpow_add]; norm_num
    _ ≤ (roundHalfEven (x / 2 ^ ulpExponent x) : ℚ) * 2 ^ ulpExponent x :=
        mul_le_mul_of_nonneg_right hq (le_of_lt (two_zpow_pos _))

theorem roundPos_mono {x y : ℚ} (hx : 0 < x) (h : x ≤ y) : roundPos x ≤ roundPos y := by
  have hy : 0 < y := lt_of_lt_of_le hx h
  rcases (ulpExponent_mono hx h).lt_or_eq with hlt | heq
  · have hn : -1022 ≤ Int.log 2 y := by
      unfold ulpExponent at hlt; omega
    calc roundPos x ≤ 2 ^ (ulpExponent x + 53) := roundPos_le_binade_top x
      _ ≤ 2 ^ (ulpExponent y + 52) := two_zpow_le (by omega)
      _ ≤ roundPos y := binade_bottom_le_roundPos hy hn
  · unfold roundPos
    rw [← heq]
    have hdiv : x / 2 ^ ulpExponent x ≤ y / 2 ^ ulpExponent x :=
      div_le_div_of_nonneg_right h (le_of_lt (two_zpow_pos _))
    have := roundHalfEven_mono hdiv
    exact mul_le_mul_of_nonneg_right (by exact_mod_cast this) (le_of_lt (two_zpow_pos _))

theorem roundFinite_mono {x y : ℚ} (h : x ≤ y) : roundFinite x ≤ roundFinite y := by
  unfold roundFinite
  by_cases hx : 0 < x
  · have hy : 0 < y := lt_of_lt_of_le hx h
    rw [if_pos hx, if_pos hy]
    exact roundPos_mono hx h
  · rw [if_neg hx]
    by_cases hx0 : x < 0
    · rw [if_pos hx0]
      have hnx : 0 ≤ roundPos (-x) := roundPos_nonneg (by linarith)
      by_cases hy : 0 < y
      · rw [if_pos hy]
        have := roundPos_nonneg hy
        linarith
      · rw [if_neg hy]
        by_cases hy0 : y < 0
        · rw [if_pos hy0]
          have := roundPos_mono (x := -y) (y := -x) (by linarith) (by linarith)
          linarith
        · rw [if_neg hy0]; linarith
    · rw [if_neg hx0]
      have hxz : x = 0 := le_antisymm (not_lt.1 hx) (not_lt.1 hx0)
      by_cases hy : 0 < y
      · rw [if_pos hy]; exact roundPos_nonneg hy
      · rw [if_neg hy, if_neg (by linarith)]

theorem roundPos_eq_self {x : ℚ} {k m : ℤ} (hk : -1022 ≤ k) (h1 : (2 : ℚ) ^ k ≤ x)
    (h2 : x < 2 ^ (k + 1)) (hm : x = m * 2 ^ (k - 52)) : roundPos x = x := by
  unfold roundPos
  rw [ulpExponent_eq hk h1 h2]
  have : x / 2 ^ (k - 52) = (m : ℚ) := by
    rw [hm]; field_simp
  rw [this, roundHalfEven_intCast]
  exact hm.symm


theorem roundFinite_of_pos {x : ℚ} (hx : 0 < x) : roundFinite x = roundPos x := by
  unfold roundFinite; rw [if_pos hx]

theorem roundFinite_neg (x : ℚ) : roundFinite (-x) = -roundFinite x := by
  unfold roundFinite
  rcases lt_trichotomy x 0 with h | h | h
  · rw [if_pos (by linarith), if_neg (by linarith), if_pos h]; simp
  · subst h; simp
  · rw [if_neg (by linarith), if_pos (by linarith), if_pos h]; simp

theorem roundFinite_eq_self {x : ℚ} {k m : ℤ} (hk : -1022 ≤ k) (h1 : (2 : ℚ) ^ k ≤ x)
    (h2 : x < 2 ^ (k + 1)) (hm : x = m * 2 ^ (k - 52)) : roundFinite x = x := by
  rw [roundFinite_of_pos (lt_of_lt_of_le (two_zpow_pos k) h1)]
  exact roundPos_eq_self hk h1 h2 hm

theorem roundFinite_natCast {n : ℕ} (hn : n < 2 ^ 53) : roundFinite (n : ℚ) = n := by
  rcases Nat.eq_zero_or_pos n with h0 | hpos
  · subst h0; simp [roundFinite]
  · have hx : (0 : ℚ) < n := by exact_mod_cast hpos
    have hk0 : Int.log 2 (n : ℚ) = Nat.log 2 n := Int.log_natCast 2 n
    have hlog : Nat.log 2 n < 53 := Nat.log_lt_of_lt_pow (by omega) hn
    have h1 : (2 : ℚ) ^ ((Nat.log 2 n : ℕ) : ℤ) ≤ n := by
      rw [zpow_natCast]
      exact_mod_cast Nat.pow_log_le_self 2 (by omega)
    have h2 : (n : ℚ) < 2 ^ (((Nat.log 2 n : ℕ) : ℤ) + 1) := by
      have : (n : ℚ) < 2 ^ (Nat.log 2 n + 1) := by
        exact_mod_cast Nat.lt_pow_succ_log_self (by norm_num) n
      rw [show (((Nat.log 2 n : ℕ) : ℤ) + 1) = ((Nat.log 2 n + 1 : ℕ) : ℤ) by push_cast; rfl,
        zpow_natCast]
      exact this
    refine roundFinite_eq_self (k := (Nat.log 2 n : ℕ)) (m := (n : ℤ) * 2 ^ (52 - Nat.log 2 n))
      (by omega) h1 h2 ?_
    have hz : (((Nat.log 2 n : ℕ) : ℤ) - 52) = -((52 - Nat.log 2 n : ℕ) : ℤ) := by omega
    rw [hz, zpow_neg, zpow_natCast]
    push_cast
    field_simp


theorem roundFinite_eval_down {x : ℚ} {k n : ℤ} (hk : -1022 ≤ k) (h1 : (2 : ℚ) ^ k ≤ x)
    (h2 : x < 2 ^ (k + 1)) (h3 : (n : ℚ) ≤ x / 2 ^ (k - 52))
    (h4 : x / 2 ^ (k - 52) < n + 1 / 2) : roundFinite x = n * 2 ^ (k - 52) := by
  rw [roundFinite_of_pos (lt_of_lt_of_le (two_zpow_pos k) h1)]
  unfold roundPos
  rw [ulpExponent_eq hk h1 h2, roundHalfEven_of_lt_half h3 h4]

theorem roundFinite_eval_up {x : ℚ} {k n : ℤ} (hk : -1022 ≤ k) (h1 : (2 : ℚ) ^ k ≤ x)
    (h2 : x < 2 ^ (k + 1)) (h3 : (n : ℚ) + 1 / 2 < x / 2 ^ (k - 52))
    (h4 : x / 2 ^ (k - 52) < n + 1) : roundFinite x = (n + 1 : ℤ) * 2 ^ (k - 52) := by
  rw [roundFinite_of_pos (lt_of_lt_of_le (two_zpow_pos k) h1)]
  unfold roundPos
  rw [ulpExponent_eq hk h1 h2, roundHalfEven_of_gt_half h3 h4]

theorem roundFinite_nineteen_twentieths :
    roundFinite (19 / 20) = 8556839292003942 / 2 ^ 53 := by
  rw [roundFinite_eval_down (k := -1) (n := 8556839292003942) (by norm_num) (by norm_num)
    (by norm_num) (by norm_num) (by norm_num)]
  norm_num

theorem roundFinite_one_twentieth :
    roundFinite (1 / 20) = 3602879701896397 / 2 ^ 56 := by
  rw [roundFinite_eval_up (k := -5) (n := 7205759403792793) (by norm_num) (by norm_num)
    (by norm_num) (by norm_num) (by norm_num)]
  norm_num

theorem roundFinite_above_nineteen_twentieths :
    roundFinite (8556839292003943 / 2 ^ 53) = 8556839292003943 / 2 ^ 53 :=
  roundFinite_eq_self (k := -1) (m := 8556839292003943) (by norm_num) (by norm_num)
    (by norm_num) (by norm_num)

theorem roundFinite_five_quarters : roundFinite (5 / 4) = 5 / 4 :=
  roundFinite_eq_self (k := 0) (m := 5 * 2 ^ 50) (by norm_num) (by norm_num)
    (by norm_num) (by norm_num)

theorem roundFinite_below_five_quarters :
    roundFinite (5 / 4 - 1 / 2 ^ 52) = 5 / 4 - 1 / 2 ^ 52 :=
  roundFinite_eq_self (k := 0) (m := 5 * 2 ^ 50 - 1) (by norm_num) (by norm_num)
    (by norm_num) (by norm_num)

theorem roundFinite_one_quarter : roundFinite (1 / 4) = 1 / 4 :=
  roundFinite_eq_self (k := -2) (m := 2 ^ 52) (by norm_num) (by norm_num)
    (by norm_num) (by norm_num)

theorem roundFinite_below_one_quarter :
    roundFinite (1 / 4 - 1 / 2 ^ 52) = 1 / 4 - 1 / 2 ^ 52 :=
  roundFinite_eq_self (k := -3) (m := 2 ^ 53 - 8) (by norm_num) (by norm_num)
    (by norm_num) (by norm_num)

theorem roundFinite_literal : roundFinite (3602879701896397 / 2 ^ 56) = 3602879701896397 / 2 ^ 56 :=
  roundFinite_eq_self (k := -5) (m := 7205759403792794) (by norm_num) (by norm_num)
    (by norm_num) (by norm_num)

theorem roundFinite_one_sub : roundFinite (450359962737050 / 2 ^ 53) = 450359962737050 / 2 ^ 53 :=
  roundFinite_eq_self (k := -5) (m := 7205759403792800) (by norm_num) (by norm_num)
    (by norm_num) (by norm_num)


theorem roundBinary64_eq_some {x r : ℚ} (h : roundBinary64 x = some r) : r = roundFinite x := by
  unfold roundBinary64 at h
  split_ifs at h
  exact (Option.some.inj h).symm

theorem roundBinary64_of_bounded {x : ℚ} (h1 : -1 ≤ x) (h2 : x ≤ 2 ^ 53 - 1) :
    roundBinary64 x = some (roundFinite x) := by
  have hhi : roundFinite x ≤ 2 ^ 53 - 1 := by
    have := roundFinite_mono h2
    have e : roundFinite (2 ^ 53 - 1) = 2 ^ 53 - 1 := by
      have := roundFinite_natCast (n := 2 ^ 53 - 1) (by norm_num)
      norm_num at this ⊢
      exact this
    rw [e] at this; exact this
  have hlo : -1 ≤ roundFinite x := by
    have := roundFinite_mono h1
    have e : roundFinite (-1) = -1 := by
      rw [roundFinite_neg]
      have := roundFinite_natCast (n := 1) (by norm_num)
      norm_num at this ⊢
      exact this
    rw [e] at this; exact this
  unfold roundBinary64
  rw [if_pos]
  rw [abs_le]
  unfold maxFinite
  constructor
  · have : (0 : ℚ) ≤ (2 ^ 53 - 1) * 2 ^ 971 := by norm_num
    linarith
  · have : (2 : ℚ) ^ 53 - 1 ≤ (2 ^ 53 - 1) * 2 ^ 971 := by norm_num
    linarith


theorem ratio_le_of_short {n D : ℕ} (hD0 : 0 < D) (h : 20 * n ≤ 19 * D) :
    roundFinite ((n : ℚ) / D) ≤ 8556839292003942 / 2 ^ 53 := by
  have hD : (0 : ℚ) < D := by exact_mod_cast hD0
  have hq : (20 : ℚ) * n ≤ 19 * D := by exact_mod_cast h
  have : (n : ℚ) / D ≤ 19 / 20 := by
    rw [div_le_iff₀ hD]; linarith
  calc roundFinite ((n : ℚ) / D) ≤ roundFinite (19 / 20) := roundFinite_mono this
    _ = 8556839292003942 / 2 ^ 53 := roundFinite_nineteen_twentieths

theorem ratio_ge_of_not_short {n D : ℕ} (hD0 : 0 < D) (hD : D < 999999990)
    (h : 19 * D < 20 * n) : 8556839292003943 / 2 ^ 53 ≤ roundFinite ((n : ℚ) / D) := by
  have hDq : (0 : ℚ) < D := by exact_mod_cast hD0
  have hDb : (D : ℚ) < 999999990 := by exact_mod_cast hD
  have hq : (19 : ℚ) * D + 1 ≤ 20 * n := by exact_mod_cast h
  have : (8556839292003943 / 2 ^ 53 : ℚ) ≤ (n : ℚ) / D := by
    rw [le_div_iff₀ hDq]; norm_num; linarith
  calc (8556839292003943 / 2 ^ 53 : ℚ) = roundFinite (8556839292003943 / 2 ^ 53) :=
        roundFinite_above_nineteen_twentieths.symm
    _ ≤ roundFinite ((n : ℚ) / D) := roundFinite_mono this

theorem ratio_le_of_small {n D : ℕ} (hD0 : 0 < D) (hD : D < 999999990)
    (h : 4 * n < 5 * D) : roundFinite ((n : ℚ) / D) ≤ 5 / 4 - 1 / 2 ^ 52 := by
  have hDq : (0 : ℚ) < D := by exact_mod_cast hD0
  have hDb : (D : ℚ) < 999999990 := by exact_mod_cast hD
  have hq : (4 : ℚ) * n + 1 ≤ 5 * D := by exact_mod_cast h
  have : (n : ℚ) / D ≤ 5 / 4 - 1 / 2 ^ 52 := by
    rw [div_le_iff₀ hDq]; norm_num; linarith
  calc roundFinite ((n : ℚ) / D) ≤ roundFinite (5 / 4 - 1 / 2 ^ 52) := roundFinite_mono this
    _ = 5 / 4 - 1 / 2 ^ 52 := roundFinite_below_five_quarters

theorem ratio_ge_of_large {x : ℚ} {D : ℕ} (hD0 : 0 < D) (h : 5 * (D : ℚ) ≤ 4 * x) :
    5 / 4 ≤ roundFinite (x / D) := by
  have hDq : (0 : ℚ) < D := by exact_mod_cast hD0
  have : (5 / 4 : ℚ) ≤ x / D := by
    rw [le_div_iff₀ hDq]; linarith
  calc (5 / 4 : ℚ) = roundFinite (5 / 4) := roundFinite_five_quarters.symm
    _ ≤ roundFinite (x / D) := roundFinite_mono this

theorem detour_ge_quarter {q : ℚ} (h : 5 / 4 ≤ q) : 1 / 4 ≤ roundFinite (q - 1) := by
  calc (1 / 4 : ℚ) = roundFinite (1 / 4) := roundFinite_one_quarter.symm
    _ ≤ roundFinite (q - 1) := roundFinite_mono (by linarith)

theorem detour_lt_quarter {q : ℚ} (h : q ≤ 5 / 4 - 1 / 2 ^ 52) : roundFinite (q - 1) < 1 / 4 := by
  have h1 : roundFinite (q - 1) ≤ roundFinite (1 / 4 - 1 / 2 ^ 52) :=
    roundFinite_mono (by linarith)
  rw [roundFinite_below_one_quarter] at h1
  have : (0 : ℚ) < 1 / 2 ^ 52 := by norm_num
  linarith

theorem detour_ge_literal {q : ℚ} (h : 8556839292003943 / 2 ^ 53 ≤ q) :
    -roundFinite (1 / 20) ≤ roundFinite (q - 1) := by
  have h1 : roundFinite (-(3602879701896397 / 2 ^ 56)) ≤ roundFinite (q - 1) :=
    roundFinite_mono (by norm_num at h ⊢; linarith)
  rw [roundFinite_neg, roundFinite_literal] at h1
  rw [roundFinite_one_twentieth]
  exact h1

theorem detour_lt_literal {q : ℚ} (h : q ≤ 8556839292003942 / 2 ^ 53) :
    roundFinite (q - 1) < -roundFinite (1 / 20) := by
  have h1 : roundFinite (q - 1) ≤ roundFinite (-(450359962737050 / 2 ^ 53)) :=
    roundFinite_mono (by norm_num at h ⊢; linarith)
  rw [roundFinite_neg, roundFinite_one_sub] at h1
  rw [roundFinite_one_twentieth]
  have : (-(450359962737050 / 2 ^ 53) : ℚ) < -(3602879701896397 / 2 ^ 56) := by norm_num
  linarith


theorem detourPercentage_of_exact_sum {a b D : ℕ} (hD0 : 0 < D) (hn : a + b < 2 ^ 53) :
    detourPercentage a b D = some (roundFinite (roundFinite (((a + b : ℕ) : ℚ) / D) - 1)) := by
  have hDq : (0 : ℚ) < D := by exact_mod_cast hD0
  have hnq : (((a + b : ℕ) : ℚ)) ≤ 2 ^ 53 - 1 := by
    have : a + b ≤ 2 ^ 53 - 1 := by omega
    have h2 : (((a + b : ℕ) : ℚ)) ≤ ((2 ^ 53 - 1 : ℕ) : ℚ) := by exact_mod_cast this
    norm_num at h2 ⊢
    exact h2
  have hn0 : (0 : ℚ) ≤ ((a + b : ℕ) : ℚ) := Nat.cast_nonneg _
  have hsum : jsAdd (a : ℚ) (b : ℚ) = some (((a + b : ℕ) : ℚ)) := by
    unfold jsAdd
    rw [← Nat.cast_add, roundBinary64_of_bounded (by linarith) hnq, roundFinite_natCast hn]
  have hdiv0 : (0 : ℚ) ≤ ((a + b : ℕ) : ℚ) / D := div_nonneg hn0 (le_of_lt hDq)
  have hdiv1 : ((a + b : ℕ) : ℚ) / D ≤ 2 ^ 53 - 1 := by
    have h1 : (1 : ℚ) ≤ D := by exact_mod_cast hD0
    have : ((a + b : ℕ) : ℚ) / D ≤ ((a + b : ℕ) : ℚ) := div_le_self hn0 h1
    linarith
  have hquot : jsDiv (((a + b : ℕ) : ℚ)) (D : ℚ)
      = some (roundFinite (((a + b : ℕ) : ℚ) / D)) := by
    unfold jsDiv
    rw [if_neg (ne_of_gt hDq), roundBinary64_of_bounded (by linarith) hdiv1]
  have hq0 : (0 : ℚ) ≤ roundFinite (((a + b : ℕ) : ℚ) / D) := by
    have := roundFinite_mono hdiv0
    have e : roundFinite 0 = 0 := by simp [roundFinite]
    rwa [e] at this
  have hq1 : roundFinite (((a + b : ℕ) : ℚ) / D) ≤ 2 ^ 53 - 1 := by
    have := roundFinite_mono hdiv1
    have e : roundFinite (2 ^ 53 - 1) = 2 ^ 53 - 1 := by
      have := roundFinite_natCast (n := 2 ^ 53 - 1) (by norm_num)
      norm_num at this ⊢
      exact this
    rwa [e] at this
  unfold detourPercentage
  rw [hsum, Option.some_bind, hquot, Option.some_bind]
  unfold jsSub
  rw [roundBinary64_of_bounded (by linarith) (by linarith)]

theorem isOnRoute_of_exact_sum {a b D : ℕ} (hD0 : 0 < D) (hD : D < 999999990)
    (hn : a + b < 2 ^ 53) :
    isOnRoute (detourPercentage a b D) = true ↔
      19 * D < 20 * (a + b) ∧ 4 * (a + b) < 5 * D := by
  rw [detourPercentage_of_exact_sum hD0 hn]
  simp only [isOnRoute, Bool.and_eq_true, decide_eq_true_eq]
  constructor
  · rintro ⟨hlt, hge⟩
    constructor
    · by_contra hc
      have := detour_lt_literal (ratio_le_of_short hD0 (not_lt.1 hc))
      linarith
    · by_contra hc
      have hq : 5 * (D : ℚ) ≤ 4 * ((a + b : ℕ) : ℚ) := by exact_mod_cast not_lt.1 hc
      have := detour_ge_quarter (ratio_ge_of_large hD0 hq)
      linarith
  · rintro ⟨h1, h2⟩
    exact ⟨detour_lt_quarter (ratio_le_of_small hD0 hD h2),
      detour_ge_literal (ratio_ge_of_not_short hD0 hD h1)⟩

theorem isOnRoute_of_large_sum {a b D : ℕ} (hD0 : 0 < D) (hD : D < 999999990)
    (hn : 2 ^ 53 ≤ a + b) : isOnRoute (detourPercentage a b D) = false := by
  have hDq : (0 : ℚ) < D := by exact_mod_cast hD0
  have hDb : (D : ℚ) < 999999990 := by exact_mod_cast hD
  unfold detourPercentage
  cases hs : jsAdd (a : ℚ) (b : ℚ) with
  | none => rfl
  | some s =>
    rw [Option.some_bind]
    have hs1 : s = roundFinite ((a : ℚ) + b) := roundBinary64_eq_some hs
    have hsge : (2 : ℚ) ^ 53 - 1 ≤ s := by
      have hle : (2 : ℚ) ^ 53 - 1 ≤ (a : ℚ) + b := by
        have : ((2 ^ 53 : ℕ) : ℚ) ≤ ((a + b : ℕ) : ℚ) := by exact_mod_cast hn
        push_cast at this
        linarith
      have := roundFinite_mono hle
      have e : roundFinite (2 ^ 53 - 1) = 2 ^ 53 - 1 := by
        have := roundFinite_natCast (n := 2 ^ 53 - 1) (by norm_num)
        norm_num at this ⊢
        exact this
      rw [e] at this
      rw [hs1]; exact this
    cases hr : jsDiv s (D : ℚ) with
    | none => rfl
    | some q =>
      rw [Option.some_bind]
      have hq1 : q = roundFinite (s / D) := by
        unfold jsDiv at hr
        rw [if_neg (ne_of_gt hDq)] at hr
        exact roundBinary64_eq_some hr
      have hqge : 5 / 4 ≤ q := by
        rw [hq1]
        exact ratio_ge_of_large hD0 (by norm_num at hsge; linarith)
      cases hp : jsSub q 1 with
      | none => rfl
      | some p =>
        have hp1 : p = roundFinite (q - 1) := roundBinary64_eq_some hp
        have := detour_ge_quarter hqge
        simp only [isOnRoute, Bool.and_eq_false_imp, decide_eq_true_eq, decide_eq_false_iff_not]
        intro hlt
        rw [hp1] at hlt
        linarith

/-- The binary64 detour test against exact arithmetic: for a divisor `D` that is non-zero and
below 999999990 the test succeeds exactly when `-0.05 < (a + b) / D - 1 < 0.25`; the lower
bound is strict. -/
theorem isOnRoute_iff {a b D : ℕ} (hD0 : 0 < D) (hD : D < 999999990) :
    isOnRoute (detourPercentage a b D) = true ↔
      19 * D < 20 * (a + b) ∧ 4 * (a + b) < 5 * D := by
  by_cases hn : a + b < 2 ^ 53
  · exact isOnRoute_of_exact_sum hD0 hD hn
  · rw [isOnRoute_of_large_sum hD0 hD (not_lt.1 hn)]
    constructor
    · intro h; cases h
    · rintro ⟨-, h2⟩
      have : 2 ^ 53 ≤ a + b := not_lt.1 hn
      omega



/-! ## The sorted array and the furthest job -/

theorem mem_insertByDistance {x a : JobWithDistance} {l : List JobWithDistance} :
    x ∈ insertByDistance a l ↔ x = a ∨ x ∈ l := by
  induction l with
  | nil => simp [insertByDistance]
  | cons b l ih =>
    unfold insertByDistance
    split_ifs
    · simp
    · simp only [List.mem_cons, ih]; tauto

theorem mem_sortByDistance {x : JobWithDistance} {l : List JobWithDistance} :
    x ∈ sortByDistance l ↔ x ∈ l := by
  induction l with
  | nil => simp [sortByDistance]
  | cons a l ih => simp [sortByDistance, mem_insertByDistance, ih]

theorem mem_jobsWithDistances {dist : String → String → ℕ} {jobs : List Job}
    {x : JobWithDistance} :
    x ∈ jobsWithDistances dist jobs ↔ ∃ J ∈ jobs, withDistance dist J = x := by
  unfold jobsWithDistances
  rw [mem_sortByDistance, List.mem_map]

theorem furthestJob_decomposition (dist : String → String → ℕ) (jobs : List Job)
    (hne : jobs ≠ []) :
    ∃ pre anchor post, jobs = pre ++ anchor :: post ∧
      furthestJob dist jobs = some (withDistance dist anchor) ∧
      (∀ j ∈ pre, dist BASE_CITY j.city < dist BASE_CITY anchor.city) ∧
      (∀ j ∈ post, dist BASE_CITY j.city ≤ dist BASE_CITY anchor.city) := by
  induction jobs with
  | nil => exact absurd rfl hne
  | cons a rest ih =>
    by_cases hrest : rest = []
    · subst hrest
      exact ⟨[], a, [], rfl, rfl, by simp, by simp⟩
    · obtain ⟨pre, h, post, hdec, hhead, hpre, hpost⟩ := ih hrest
      unfold furthestJob jobsWithDistances at hhead
      obtain ⟨t, ht⟩ : ∃ t, sortByDistance (rest.map (withDistance dist))
          = withDistance dist h :: t := by
        cases hs : sortByDistance (rest.map (withDistance dist)) with
        | nil => rw [hs] at hhead; cases hhead
        | cons b t =>
          rw [hs] at hhead
          simp only [List.head?_cons, Option.some.injEq] at hhead
          exact ⟨t, by rw [hhead]⟩
      have hsort : jobsWithDistances dist (a :: rest)
          = insertByDistance (withDistance dist a) (withDistance dist h :: t) := by
        unfold jobsWithDistances
        rw [List.map_cons, sortByDistance, ht]
      by_cases hcmp : dist BASE_CITY h.city ≤ dist BASE_CITY a.city
      · refine ⟨[], a, rest, rfl, ?_, by simp, ?_⟩
        · unfold furthestJob
          rw [hsort, insertByDistance, if_pos (show (withDistance dist h).distanceFromBase
            ≤ (withDistance dist a).distanceFromBase from hcmp)]
          rfl
        · intro j hj
          rw [hdec] at hj
          rcases List.mem_append.1 hj with hj | hj
          · exact le_trans (le_of_lt (hpre j hj)) hcmp
          · rcases List.mem_cons.1 hj with hj | hj
            · rw [hj]; exact hcmp
            · exact le_trans (hpost j hj) hcmp
      · refine ⟨a :: pre, h, post, by rw [hdec]; rfl, ?_, ?_, hpost⟩
        · unfold furthestJob
          rw [hsort, insertByDistance, if_neg (show ¬ (withDistance dist h).distanceFromBase
            ≤ (withDistance dist a).distanceFromBase from hcmp)]
          rfl
        · intro j hj
          rcases List.mem_cons.1 hj with hj | hj
          · rw [hj]; exact not_le.1 hcmp
          · exact hpre j hj


/-! ## The pricing loop -/

theorem processDailyJobs_of_two_le (toUpperCase : String → String)
    (dist : String → String → ℕ) (jobs : List Job) (F : JobWithDistance)
    (hlen : 2 ≤ jobs.length) (hF : furthestJob dist jobs = some F) :
    processDailyJobs toUpperCase dist jobs =
      (jobs.map fun job => Effect.getMapsDistance BASE_CITY job.city) ++
        (jobsWithDistances dist jobs).flatMap (priceJob toUpperCase dist F) := by
  match jobs, hlen, hF with
  | [], hlen, _ => simp at hlen
  | [_], hlen, _ => simp at hlen
  | a :: b :: rest, _, hF => simp only [processDailyJobs, hF]

theorem priceJob_anchor (toUpperCase : String → String) (dist : String → String → ℕ)
    {F j : JobWithDistance} (h : j.row = F.row) :
    priceJob toUpperCase dist F j =
      [.setValue j.row (calculateFullServiceValue toUpperCase j.city j.notes)] := by
  unfold priceJob
  rw [if_pos h]

theorem priceJob_degraded (toUpperCase : String → String) (dist : String → String → ℕ)
    {F j : JobWithDistance} (h : j.row ≠ F.row)
    (hD : F.distanceFromBase = 0 ∨ 999999990 ≤ F.distanceFromBase) :
    priceJob toUpperCase dist F j =
      [.getMapsDistance j.city F.city,
        .setValue j.row (calculateFullServiceValue toUpperCase j.city j.notes)] := by
  unfold priceJob
  rw [if_neg h, if_pos hD]

theorem priceJob_satellite (toUpperCase : String → String) (dist : String → String → ℕ)
    {F j : JobWithDistance} (h : j.row ≠ F.row) (hD0 : F.distanceFromBase ≠ 0)
    (hD : F.distanceFromBase < 999999990) :
    priceJob toUpperCase dist F j =
      [.getMapsDistance j.city F.city, .divide F.distanceFromBase,
        .setValue j.row
          (if 19 * F.distanceFromBase < 20 * (j.distanceFromBase + dist j.city F.city) ∧
              4 * (j.distanceFromBase + dist j.city F.city) < 5 * F.distanceFromBase
            then minimumValue toUpperCase j.notes
            else calculateFullServiceValue toUpperCase j.city j.notes)] := by
  unfold priceJob
  rw [if_neg h, if_neg (by omega)]
  by_cases hr : 19 * F.distanceFromBase < 20 * (j.distanceFromBase + dist j.city F.city) ∧
      4 * (j.distanceFromBase + dist j.city F.city) < 5 * F.distanceFromBase
  · rw [if_pos hr, if_pos ((isOnRoute_iff (by omega) hD).2 hr)]
  · rw [if_neg hr, if_neg (fun hc => hr ((isOnRoute_iff (by omega) hD).1 hc))]

theorem row_of_setValue_mem_priceJob {toUpperCase : String → String}
    {dist : String → String → ℕ} {F j : JobWithDistance} {r : ℕ} {v : Value}
    (h : Effect.setValue r v ∈ priceJob toUpperCase dist F j) : r = j.row := by
  unfold priceJob at h
  split_ifs at h <;> simp at h <;> exact h.1

theorem setValue_mem_processDailyJobs (toUpperCase : String → String)
    (dist : String → String → ℕ) (jobs : List Job) (F : JobWithDistance)
    (hlen : 2 ≤ jobs.length) (hrows : (jobs.map Job.row).Nodup)
    (hF : furthestJob dist jobs = some F) (J : Job) (hJ : J ∈ jobs) (v : Value) :
    Effect.setValue J.row v ∈ processDailyJobs toUpperCase dist jobs ↔
      Effect.setValue J.row v ∈ priceJob toUpperCase dist F (withDistance dist J) := by
  rw [processDailyJobs_of_two_le toUpperCase dist jobs F hlen hF]
  constructor
  · intro h
    rcases List.mem_append.1 h with h | h
    · simp at h
    · obtain ⟨x, hx, hmem⟩ := List.mem_flatMap.1 h
      obtain ⟨K, hK, rfl⟩ := mem_jobsWithDistances.1 hx
      have hrow : J.row = K.row := row_of_setValue_mem_priceJob hmem
      have : J = K := List.inj_on_of_nodup_map hrows hJ hK hrow
      subst this; exact hmem
  · intro h
    exact List.mem_append.2 (Or.inr (List.mem_flatMap.2
      ⟨withDistance dist J, mem_jobsWithDistances.2 ⟨J, hJ, rfl⟩, h⟩))

theorem furthestJob_mem {dist : String → String → ℕ} {jobs : List Job} {F : JobWithDistance}
    (hF : furthestJob dist jobs = some F) : ∃ A ∈ jobs, withDistance dist A = F := by
  unfold furthestJob at hF
  exact mem_jobsWithDistances.1 (List.mem_of_mem_head? hF)


/-- Value written for a job other than the furthest one when the furthest distance `D` is
usable: the flat minimum exactly when `19 * D < 20 * (a + b)` and `4 * (a + b) < 5 * D`,
that is `-0.05 < (a + b) / D - 1 < 0.25`, and the full service value otherwise. -/
theorem satellite_value (toUpperCase : String → String) (dist : String → String → ℕ)
    (jobs : List Job) (F : JobWithDistance) (hlen : 2 ≤ jobs.length)
    (hrows : (jobs.map Job.row).Nodup) (hF : furthestJob dist jobs = some F)
    (J : Job) (hJ : J ∈ jobs) (hrow : J.row ≠ F.row) (hD0 : F.distanceFromBase ≠ 0)
    (hD : F.distanceFromBase < 999999990) (v : Value) :
    Effect.setValue J.row v ∈ processDailyJobs toUpperCase dist jobs ↔
      v = if 19 * F.distanceFromBase < 20 * (dist BASE_CITY J.city + dist J.city F.city) ∧
            4 * (dist BASE_CITY J.city + dist J.city F.city) < 5 * F.distanceFromBase
          then minimumValue toUpperCase J.notes
          else calculateFullServiceValue toUpperCase J.city J.notes := by
  rw [setValue_mem_processDailyJobs toUpperCase dist jobs F hlen hrows hF J hJ v,
    priceJob_satellite toUpperCase dist (j := withDistance dist J) hrow hD0 hD]
  simp [withDistance]

/-! ## Properties of the route analysis -/

/-- C2: in a day plan with at least two jobs on distinct rows, the furthest job is the first
job in sheet order among those at maximal distance from the base, the loop runs with that
job as `furthestJob`, and it is the only job whose row passes the test
`currentJob.row === furthestJob.row`. -/
theorem anchor_is_first_furthest (dist : String → String → ℕ) (jobs : List Job)
    (hlen : 2 ≤ jobs.length) (hrows : (jobs.map Job.row).Nodup) :
    ∃ pre anchor post, jobs = pre ++ anchor :: post ∧
      furthestJob dist jobs = some (withDistance dist anchor) ∧
      (∀ j ∈ pre, dist BASE_CITY j.city < dist BASE_CITY anchor.city) ∧
      (∀ j ∈ post, dist BASE_CITY j.city ≤ dist BASE_CITY anchor.city) ∧
      (∀ j ∈ jobs, j.row = (withDistance dist anchor).row ↔ j = anchor) ∧
      ∀ toUpperCase : String → String, processDailyJobs toUpperCase dist jobs =
        (jobs.map fun job => Effect.getMapsDistance BASE_CITY job.city) ++
          (jobsWithDistances dist jobs).flatMap
            (priceJob toUpperCase dist (withDistance dist anchor)) := by
  have hne : jobs ≠ [] := by
    intro h; rw [h] at hlen; simp at hlen
  obtain ⟨pre, anchor, post, hdec, hhead, hpre, hpost⟩ := furthestJob_decomposition dist jobs hne
  have hmem : anchor ∈ jobs := by rw [hdec]; simp
  refine ⟨pre, anchor, post, hdec, hhead, hpre, hpost, ?_, ?_⟩
  · intro j hj
    constructor
    · intro h
      exact List.inj_on_of_nodup_map hrows hj hmem h
    · intro h; rw [h]; rfl
  · intro toUpperCase
    exact processDailyJobs_of_two_le toUpperCase dist jobs _ hlen hhead

/-- Witness of C2 on the example plan: Hamilton, second on the sheet and furthest from the
base, is the furthest job. -/
theorem anchor_is_first_furthest_witness :
    (2 ≤ examplePlan.length ∧ (examplePlan.map Job.row).Nodup) ∧
    ∃ pre anchor post, examplePlan = pre ++ anchor :: post ∧
      furthestJob exampleDistance examplePlan = some (withDistance exampleDistance anchor) ∧
      (∀ j ∈ pre, exampleDistance BASE_CITY j.city < exampleDistance BASE_CITY anchor.city) ∧
      (∀ j ∈ post, exampleDistance BASE_CITY j.city ≤ exampleDistance BASE_CITY anchor.city) ∧
      (∀ j ∈ examplePlan, j.row = (withDistance exampleDistance anchor).row ↔ j = anchor) ∧
      ∀ toUpperCase : String → String,
        processDailyJobs toUpperCase exampleDistance examplePlan =
          (examplePlan.map fun job => Effect.getMapsDistance BASE_CITY job.city) ++
            (jobsWithDistances exampleDistance examplePlan).flatMap
              (priceJob toUpperCase exampleDistance (withDistance exampleDistance anchor)) :=
  ⟨⟨by decide, by decide⟩,
    anchor_is_first_furthest exampleDistance examplePlan (by decide) (by decide)⟩

/-- C3: in a day plan with at least two jobs on distinct rows, the value written on the row of
the furthest job is exactly `calculateFullServiceValue` of its city and notes, for every
distance function, and its iteration consists of that single write: no pairwise query, no
division, no flat minimum. -/
theorem anchor_gets_full_value (toUpperCase : String → String) (dist : String → String → ℕ)
    (jobs : List Job) (F : JobWithDistance) (hlen : 2 ≤ jobs.length)
    (hrows : (jobs.map Job.row).Nodup) (hF : furthestJob dist jobs = some F) :
    (∃ A ∈ jobs, withDistance dist A = F) ∧
    (∀ v, Effect.setValue F.row v ∈ processDailyJobs toUpperCase dist jobs ↔
      v = calculateFullServiceValue toUpperCase F.city F.notes) ∧
    priceJob toUpperCase dist F F =
      [.setValue F.row (calculateFullServiceValue toUpperCase F.city F.notes)] := by
  obtain ⟨A, hA, hAF⟩ := furthestJob_mem hF
  refine ⟨⟨A, hA, hAF⟩, ?_, priceJob_anchor toUpperCase dist rfl⟩
  intro v
  have hrow : A.row = F.row := by rw [← hAF]; rfl
  have := setValue_mem_processDailyJobs toUpperCase dist jobs F hlen hrows hF A hA v
  rw [hAF, hrow, priceJob_anchor toUpperCase dist rfl] at this
  rw [this]
  simp


/-- Witness of C3 on the example plan: Hamilton on row 5 is the furthest job and row 5
receives 260, the full value of Hamilton. -/
theorem anchor_gets_full_value_witness :
    (2 ≤ examplePlan.length ∧ (examplePlan.map Job.row).Nodup ∧
      furthestJob exampleDistance examplePlan = some ⟨⟨5, "Hamilton", ""⟩, 40000⟩) ∧
    Effect.setValue 5 (.number 260) ∈
      processDailyJobs asciiToUpperCase exampleDistance examplePlan :=
  ⟨⟨by decide, by decide, by decide⟩,
    ((anchor_gets_full_value asciiToUpperCase exampleDistance examplePlan
      ⟨⟨5, "Hamilton", ""⟩, 40000⟩ (by decide) (by decide) (by decide)).2.1
        (.number 260)).2 (by decide)⟩

/-- C4: in a day plan with at least two jobs on distinct rows, when the distance of the
furthest job from the base is 0 or at least 999999990, every other job is written its
`calculateFullServiceValue` and the run performs no division; and in every run, each
division by the distance of the furthest job has a divisor that is non-zero and below
999999990. -/
theorem degraded_anchor_gives_full_value (toUpperCase : String → String)
    (dist : String → String → ℕ) (jobs : List Job) (F : JobWithDistance)
    (hlen : 2 ≤ jobs.length) (hrows : (jobs.map Job.row).Nodup)
    (hF : furthestJob dist jobs = some F) :
    (F.distanceFromBase = 0 ∨ 999999990 ≤ F.distanceFromBase →
      (∀ J ∈ jobs, J.row ≠ F.row → ∀ v,
        (Effect.setValue J.row v ∈ processDailyJobs toUpperCase dist jobs ↔
          v = calculateFullServiceValue toUpperCase J.city J.notes)) ∧
      ∀ d, Effect.divide d ∉ processDailyJobs toUpperCase dist jobs) ∧
    ∀ d, Effect.divide d ∈ processDailyJobs toUpperCase dist jobs →
      d = F.distanceFromBase ∧ d ≠ 0 ∧ d < 999999990 := by
  have hdiv : ∀ d, Effect.divide d ∈ processDailyJobs toUpperCase dist jobs →
      d = F.distanceFromBase ∧ d ≠ 0 ∧ d < 999999990 := by
    intro d hd
    rw [processDailyJobs_of_two_le toUpperCase dist jobs F hlen hF] at hd
    rcases List.mem_append.1 hd with h | h
    · simp at h
    · obtain ⟨x, -, hmem⟩ := List.mem_flatMap.1 h
      by_cases h1 : x.row = F.row
      · rw [priceJob_anchor toUpperCase dist h1] at hmem
        simp at hmem
      · by_cases h2 : F.distanceFromBase = 0 ∨ 999999990 ≤ F.distanceFromBase
        · rw [priceJob_degraded toUpperCase dist h1 h2] at hmem
          simp at hmem
        · rw [priceJob_satellite toUpperCase dist h1 (by omega) (by omega)] at hmem
          simp at hmem
          exact ⟨hmem, by omega, by omega⟩
  refine ⟨fun hbad => ⟨?_, ?_⟩, hdiv⟩
  · intro J hJ hrow v
    rw [setValue_mem_processDailyJobs toUpperCase dist jobs F hlen hrows hF J hJ v,
      priceJob_degraded toUpperCase dist (j := withDistance dist J) hrow hbad]
    simp [withDistance]
  · intro d hd
    have := hdiv d hd
    omega

/-- Witness of C4: when every query fails, Oshawa on row 4 is the furthest job at distance
999999999 and Hamilton on row 5 receives 260, its full value. -/
theorem degraded_anchor_gives_full_value_witness :
    (2 ≤ examplePlan.length ∧ (examplePlan.map Job.row).Nodup ∧
      furthestJob failingDistance examplePlan = some ⟨⟨4, "Oshawa", ""⟩, 999999999⟩) ∧
    Effect.setValue 5 (.number 260) ∈
      processDailyJobs asciiToUpperCase failingDistance examplePlan ∧
    ∀ d, Effect.divide d ∉ processDailyJobs asciiToUpperCase failingDistance examplePlan :=
  ⟨⟨by decide, by decide, by decide⟩,
    (((degraded_anchor_gives_full_value asciiToUpperCase failingDistance examplePlan
      ⟨⟨4, "Oshawa", ""⟩, 999999999⟩ (by decide) (by decide) (by decide)).1
        (Or.inr (by decide))).1 ⟨5, "Hamilton", ""⟩ (by decide) (by decide)
          (.number 260)).2 (by decide),
    ((degraded_anchor_gives_full_value asciiToUpperCase failingDistance examplePlan
      ⟨⟨4, "Oshawa", ""⟩, 999999999⟩ (by decide) (by decide) (by decide)).1
        (Or.inr (by decide))).2⟩

/-- C5: for a day plan of exactly one job the run is the single write of
`calculateFullServiceValue` of the job on its row; no `getMapsDistance` call and no division
occurs. -/
theorem single_job_gets_full_value (toUpperCase : String → String)
    (dist : String → String → ℕ) (job : Job) :
    processDailyJobs toUpperCase dist [job] =
      [.setValue job.row (calculateFullServiceValue toUpperCase job.city job.notes)] ∧
    (∀ origin destination,
      Effect.getMapsDistance origin destination ∉ processDailyJobs toUpperCase dist [job]) ∧
    ∀ jobs : List Job, jobs.length = 1 → ∀ e ∈ processDailyJobs toUpperCase dist jobs,
      ∃ J ∈ jobs, e = .setValue J.row (calculateFullServiceValue toUpperCase J.city J.notes) := by
  refine ⟨rfl, ?_, ?_⟩
  · intro origin destination h
    simp [processDailyJobs] at h
  · intro jobs hlen e he
    match jobs, hlen, he with
    | [J], _, he =>
      simp only [processDailyJobs, List.mem_singleton] at he
      exact ⟨J, by simp, he⟩


/-- C1: run on the example plan with distances 10,000 m (base to Oshawa), 28,000 m (Oshawa to
Hamilton) and 40,000 m (base to Hamilton), whose exact detour ratio is -0.05. The flat
minimum of the Oshawa job is 140, yet row 4 is written 260, the full value of Oshawa: the
binary64 value of `38000 / 40000 - 1` lies below the binary64 value of `-0.05`, so the
lower bound of the test excludes the exact ratio -0.05. -/
theorem boundary_ratio_run :
    minimumValue asciiToUpperCase "" = .number 140 ∧
    processDailyJobs asciiToUpperCase boundaryDistance examplePlan =
      [.getMapsDistance "Toronto" "Oshawa", .getMapsDistance "Toronto" "Hamilton",
        .setValue 5 (.number 260), .getMapsDistance "Oshawa" "Hamilton", .divide 40000,
        .setValue 4 (.number 260)] := by
  refine ⟨by decide, ?_⟩
  have hj : jobsWithDistances boundaryDistance examplePlan
      = [⟨⟨5, "Hamilton", ""⟩, 40000⟩, ⟨⟨4, "Oshawa", ""⟩, 10000⟩] := by decide
  rw [processDailyJobs_of_two_le asciiToUpperCase boundaryDistance examplePlan
    ⟨⟨5, "Hamilton", ""⟩, 40000⟩ (by decide) (by decide), hj]
  simp only [List.flatMap_cons, List.flatMap_nil, List.append_nil]
  rw [priceJob_anchor asciiToUpperCase boundaryDistance rfl,
    priceJob_satellite asciiToUpperCase boundaryDistance (by decide) (by decide) (by decide)]
  decide

/-- C10: the two boundary cases of the detour test, evaluated as the code does. With
10,000 m + 28,000 m against 40,000 m the computed detour is `-450359962737050 / 2 ^ 53`,
strictly below the binary64 literal `-0.05`, so the test fails and the job gets its full
value; with 10,000 m + 40,000 m against 40,000 m the computed detour is exactly 0.25, the
test fails and the job gets its full value. -/
theorem detour_boundary_cases :
    detourPercentage 10000 28000 40000 = some (-(450359962737050 / 2 ^ 53)) ∧
    (-(450359962737050 / 2 ^ 53) : ℚ) < -roundFinite (1 / 20) ∧
    isOnRoute (detourPercentage 10000 28000 40000) = false ∧
    priceJob asciiToUpperCase boundaryDistance ⟨⟨5, "Hamilton", ""⟩, 40000⟩
        ⟨⟨4, "Oshawa", ""⟩, 10000⟩ =
      [.getMapsDistance "Oshawa" "Hamilton", .divide 40000, .setValue 4 (.number 260)] ∧
    detourPercentage 10000 40000 40000 = some (1 / 4) ∧
    isOnRoute (detourPercentage 10000 40000 40000) = false ∧
    priceJob asciiToUpperCase quarterDistance ⟨⟨5, "Hamilton", ""⟩, 40000⟩
        ⟨⟨4, "Oshawa", ""⟩, 10000⟩ =
      [.getMapsDistance "Oshawa" "Hamilton", .divide 40000, .setValue 4 (.number 260)] := by
  have hlow : detourPercentage 10000 28000 40000 = some (-(450359962737050 / 2 ^ 53)) := by
    rw [detourPercentage_of_exact_sum (by norm_num) (by norm_num)]
    have e1 : (((10000 + 28000 : ℕ) : ℚ)) / ((40000 : ℕ) : ℚ) = 19 / 20 := by norm_num
    have e2 : (8556839292003942 / 2 ^ 53 - 1 : ℚ) = -(450359962737050 / 2 ^ 53) := by norm_num
    rw [e1, roundFinite_nineteen_twentieths, e2, roundFinite_neg, roundFinite_one_sub]
  have hhigh : detourPercentage 10000 40000 40000 = some (1 / 4) := by
    rw [detourPercentage_of_exact_sum (by norm_num) (by norm_num)]
    have e1 : (((10000 + 40000 : ℕ) : ℚ)) / ((40000 : ℕ) : ℚ) = 5 / 4 := by norm_num
    have e2 : (5 / 4 - 1 : ℚ) = 1 / 4 := by norm_num
    rw [e1, roundFinite_five_quarters, e2, roundFinite_one_quarter]
  have hlit : (-(450359962737050 / 2 ^ 53) : ℚ) < -roundFinite (1 / 20) := by
    rw [roundFinite_one_twentieth]; norm_num
  refine ⟨hlow, hlit, ?_, ?_, hhigh, ?_, ?_⟩
  · rw [hlow]
    simp only [isOnRoute, Bool.and_eq_false_imp, decide_eq_true_eq, decide_eq_false_iff_not,
      not_le]
    intro _
    exact hlit
  · rw [priceJob_satellite asciiToUpperCase boundaryDistance (by decide) (by decide)
      (by decide)]
    decide
  · rw [hhigh]
    simp [isOnRoute]
  · rw [priceJob_satellite asciiToUpperCase quarterDistance (by decide) (by decide)
      (by decide)]
    decide


/-! ## Properties of the fixed-rate table -/

theorem standard_eq_specPrice (km : ℚ) :
    calculateStandardValue km = specPrice standardSchedule km := by
  unfold calculateStandardValue specPrice standardSchedule
  simp only [List.find?_cons, List.find?_nil]
  split_ifs <;> simp [*]

theorem svd_eq_specPrice (km : ℚ) : calculateSvdValue km = specPrice svdSchedule km := by
  unfold calculateSvdValue specPrice svdSchedule
  simp only [List.find?_cons, List.find?_nil]
  split_ifs <;> simp [*]

theorem standard_outside_iff (km : ℚ) :
    calculateStandardValue km = .text "Outside rate table" ↔ 400 < km := by
  unfold calculateStandardValue
  split_ifs <;> simp <;> linarith

theorem svd_outside_iff (km : ℚ) :
    calculateSvdValue km = .text "Outside rate table" ↔ 400 < km := by
  unfold calculateSvdValue
  split_ifs <;> simp <;> linarith

theorem forall_thresholds (P : ℚ → Prop) :
    (∀ u ∈ thresholds, P u) ↔
      P 50 ∧ P 100 ∧ P 150 ∧ P 200 ∧ P 250 ∧ P 300 ∧ P 350 ∧ P 400 := by
  simp [thresholds]

theorem mem_standardSchedule (t : ℚ) (p : ℕ) :
    (t, p) ∈ standardSchedule ↔
      (t = 50 ∧ p = 140) ∨ (t = 100 ∧ p = 260) ∨ (t = 150 ∧ p = 270) ∨ (t = 200 ∧ p = 364) ∨
      (t = 250 ∧ p = 374) ∨ (t = 300 ∧ p = 384) ∨ (t = 350 ∧ p = 540) ∨
      (t = 400 ∧ p = 550) := by
  simp [standardSchedule]

theorem mem_svdSchedule (t : ℚ) (q : ℕ) :
    (t, q) ∈ svdSchedule ↔
      (t = 50 ∧ q = 290) ∨ (t = 100 ∧ q = 384) ∨ (t = 150 ∧ q = 395) ∨ (t = 200 ∧ q = 560) ∨
      (t = 250 ∧ q = 572) ∨ (t = 300 ∧ q = 580) ∨ (t = 350 ∧ q = 590) ∨
      (t = 400 ∧ q = 600) := by
  simp [svdSchedule]

theorem covering_threshold (km : ℚ) (h400 : km ≤ 400) :
    ∃ t p q, (t, p) ∈ standardSchedule ∧ (t, q) ∈ svdSchedule ∧ km ≤ t ∧
      (∀ u ∈ thresholds, km ≤ u → t ≤ u) ∧
      calculateStandardValue km = .number p ∧ calculateSvdValue km = .number q := by
  simp only [forall_thresholds, mem_standardSchedule, mem_svdSchedule]
  unfold calculateStandardValue calculateSvdValue
  by_cases h1 : km ≤ 50
  · refine ⟨50, 140, 290, by simp, by simp, h1, ⟨fun _ => by linarith, fun _ => by linarith, fun _ => by linarith, fun _ => by linarith, fun _ => by linarith, fun _ => by linarith, fun _ => by linarith, fun _ => by linarith⟩, ?_, ?_⟩ <;>
      rw [if_pos h1]
  by_cases h2 : km ≤ 100
  · refine ⟨100, 260, 384, by simp, by simp, h2, ⟨fun _ => by linarith, fun _ => by linarith, fun _ => by linarith, fun _ => by linarith, fun _ => by linarith, fun _ => by linarith, fun _ => by linarith, fun _ => by linarith⟩, ?_, ?_⟩ <;>
      rw [if_neg h1, if_pos h2]
  by_cases h3 : km ≤ 150
  · refine ⟨150, 270, 395, by simp, by simp, h3, ⟨fun _ => by linarith, fun _ => by linarith, fun _ => by linarith, fun _ => by linarith, fun _ => by linarith, fun _ => by linarith, fun _ => by linarith, fun _ => by linarith⟩, ?_, ?_⟩ <;>
      rw [if_neg h1, if_neg h2, if_pos h3]
  by_cases h4 : km ≤ 200
  · refine ⟨200, 364, 560, by simp, by simp, h4, ⟨fun _ => by linarith, fun _ => by linarith, fun _ => by linarith, fun _ => by linarith, fun _ => by linarith, fun _ => by linarith, fun _ => by linarith, fun _ => by linarith⟩, ?_, ?_⟩ <;>
      rw [if_neg h1, if_neg h2, if_neg h3, if_pos h4]
  by_cases h5 : km ≤ 250
  · refine ⟨250, 374, 572, by simp, by simp, h5, ⟨fun _ => by linarith, fun _ => by linarith, fun _ => by linarith, fun _ => by linarith, fun _ => by linarith, fun _ => by linarith, fun _ => by linarith, fun _ => by linarith⟩, ?_, ?_⟩ <;>
      rw [if_neg h1, if_neg h2, if_neg h3, if_neg h4, if_pos h5]
  by_cases h6 : km ≤ 300
  · refine ⟨300, 384, 580, by simp, by simp, h6, ⟨fun _ => by linarith, fun _ => by linarith, fun _ => by linarith, fun _ => by linarith, fun _ => by linarith, fun _ => by linarith, fun _ => by linarith, fun _ => by linarith⟩, ?_, ?_⟩ <;>
      rw [if_neg h1, if_neg h2, if_neg h3, if_neg h4, if_neg h5, if_pos h6]
  by_cases h7 : km ≤ 350
  · refine ⟨350, 540, 590, by simp, by simp, h7, ⟨fun _ => by linarith, fun _ => by linarith, fun _ => by linarith, fun _ => by linarith, fun _ => by linarith, fun _ => by linarith, fun _ => by linarith, fun _ => by linarith⟩, ?_, ?_⟩ <;>
      rw [if_neg h1, if_neg h2, if_neg h3, if_neg h4, if_neg h5, if_neg h6, if_pos h7]
  · refine ⟨400, 550, 600, by simp, by simp, h400, ⟨fun _ => by linarith, fun _ => by linarith, fun _ => by linarith, fun _ => by linarith, fun _ => by linarith, fun _ => by linarith, fun _ => by linarith, fun _ => by linarith⟩, ?_, ?_⟩ <;>
      rw [if_neg h1, if_neg h2, if_neg h3, if_neg h4, if_neg h5, if_neg h6, if_neg h7, if_pos h400]

/-- C6: both tier functions compute the specification lookup over the shared ascending
thresholds 50, 100, ..., 400: for a distance of at most 400 km the result is the price
attached to the smallest threshold that is at least the distance, and the result is the tag
"Outside rate table" exactly when the distance exceeds 400 km. -/
theorem tier_price_is_smallest_threshold (km : ℚ) :
    calculateStandardValue km = specPrice standardSchedule km ∧
    calculateSvdValue km = specPrice svdSchedule km ∧
    standardSchedule.map Prod.fst = thresholds ∧ svdSchedule.map Prod.fst = thresholds ∧
    (calculateStandardValue km = .text "Outside rate table" ↔ 400 < km) ∧
    (calculateSvdValue km = .text "Outside rate table" ↔ 400 < km) ∧
    (km ≤ 400 → ∃ t p q, (t, p) ∈ standardSchedule ∧ (t, q) ∈ svdSchedule ∧ km ≤ t ∧
      (∀ u ∈ thresholds, km ≤ u → t ≤ u) ∧
      calculateStandardValue km = .number p ∧ calculateSvdValue km = .number q) :=
  ⟨standard_eq_specPrice km, svd_eq_specPrice km, rfl, rfl, standard_outside_iff km,
    svd_outside_iff km, covering_threshold km⟩

theorem standard_lower_bounds (km : ℚ) (h400 : km ≤ 400) :
    ∃ p, calculateStandardValue km = .number p ∧ 140 ≤ p ∧
      (50 < km → 260 ≤ p) ∧
      (100 < km → 270 ≤ p) ∧
      (150 < km → 364 ≤ p) ∧
      (200 < km → 374 ≤ p) ∧
      (250 < km → 384 ≤ p) ∧
      (300 < km → 540 ≤ p) ∧
      (350 < km → 550 ≤ p) := by
  unfold calculateStandardValue
  by_cases h1 : km ≤ 50
  · rw [if_pos h1]
    exact ⟨140, rfl, by decide, fun h => by exfalso; linarith, fun h => by exfalso; linarith, fun h => by exfalso; linarith,
      fun h => by exfalso; linarith, fun h => by exfalso; linarith, fun h => by exfalso; linarith, fun h => by exfalso; linarith⟩
  by_cases h2 : km ≤ 100
  · rw [if_neg h1, if_pos h2]
    exact ⟨260, rfl, by decide, fun _ => by decide, fun h => by exfalso; linarith, fun h => by exfalso; linarith,
      fun h => by exfalso; linarith, fun h => by exfalso; linarith, fun h => by exfalso; linarith, fun h => by exfalso; linarith⟩
  by_cases h3 : km ≤ 150
  · rw [if_neg h1, if_neg h2, if_pos h3]
    exact ⟨270, rfl, by decide, fun _ => by decide, fun _ => by decide, fun h => by exfalso; linarith,
      fun h => by exfalso; linarith, fun h => by exfalso; linarith, fun h => by exfalso; linarith, fun h => by exfalso; linarith⟩
  by_cases h4 : km ≤ 200
  · rw [if_neg h1, if_neg h2, if_neg h3, if_pos h4]
    exact ⟨364, rfl, by decide, fun _ => by decide, fun _ => by decide, fun _ => by decide,
      fun h => by exfalso; linarith, fun h => by exfalso; linarith, fun h => by exfalso; linarith, fun h => by exfalso; linarith⟩
  by_cases h5 : km ≤ 250
  · rw [if_neg h1, if_neg h2, if_neg h3, if_neg h4, if_pos h5]
    exact ⟨374, rfl, by decide, fun _ => by decide, fun _ => by decide, fun _ => by decide,
      fun _ => by decide, fun h => by exfalso; linarith, fun h => by exfalso; linarith, fun h => by exfalso; linarith⟩
  by_cases h6 : km ≤ 300
  · rw [if_neg h1, if_neg h2, if_neg h3, if_neg h4, if_neg h5, if_pos h6]
    exact ⟨384, rfl, by decide, fun _ => by decide, fun _ => by decide, fun _ => by decide,
      fun _ => by decide, fun _ => by decide, fun h => by exfalso; linarith, fun h => by exfalso; linarith⟩
  by_cases h7 : km ≤ 350
  · rw [if_neg h1, if_neg h2, if_neg h3, if_neg h4, if_neg h5, if_neg h6, if_pos h7]
    exact ⟨540, rfl, by decide, fun _ => by decide, fun _ => by decide, fun _ => by decide,
      fun _ => by decide, fun _ => by decide, fun _ => by decide, fun h => by exfalso; linarith⟩
  · rw [if_neg h1, if_neg h2, if_neg h3, if_neg h4, if_neg h5, if_neg h6, if_neg h7, if_pos h400]
    exact ⟨550, rfl, by decide, fun _ => by decide, fun _ => by decide, fun _ => by decide,
      fun _ => by decide, fun _ => by decide, fun _ => by decide, fun _ => by decide⟩

theorem standard_monotone (km1 km2 : ℚ) (h12 : km1 ≤ km2) (h400 : km2 ≤ 400) :
    ∃ p1 p2, calculateStandardValue km1 = .number p1 ∧ calculateStandardValue km2 = .number p2 ∧
      p1 ≤ p2 := by
  obtain ⟨p2, h2, b0, b1, b2, b3, b4, b5, b6, b7⟩ := standard_lower_bounds km2 h400
  rw [h2]
  unfold calculateStandardValue
  by_cases h1 : km1 ≤ 50
  · rw [if_pos h1]
    exact ⟨140, p2, rfl, rfl, b0⟩
  by_cases h2 : km1 ≤ 100
  · rw [if_neg h1, if_pos h2]
    exact ⟨260, p2, rfl, rfl, b1 (by linarith)⟩
  by_cases h3 : km1 ≤ 150
  · rw [if_neg h1, if_neg h2, if_pos h3]
    exact ⟨270, p2, rfl, rfl, b2 (by linarith)⟩
  by_cases h4 : km1 ≤ 200
  · rw [if_neg h1, if_neg h2, if_neg h3, if_pos h4]
    exact ⟨364, p2, rfl, rfl, b3 (by linarith)⟩
  by_cases h5 : km1 ≤ 250
  · rw [if_neg h1, if_neg h2, if_neg h3, if_neg h4, if_pos h5]
    exact ⟨374, p2, rfl, rfl, b4 (by linarith)⟩
  by_cases h6 : km1 ≤ 300
  · rw [if_neg h1, if_neg h2, if_neg h3, if_neg h4, if_neg h5, if_pos h6]
    exact ⟨384, p2, rfl, rfl, b5 (by linarith)⟩
  by_cases h7 : km1 ≤ 350
  · rw [if_neg h1, if_neg h2, if_neg h3, if_neg h4, if_neg h5, if_neg h6, if_pos h7]
    exact ⟨540, p2, rfl, rfl, b6 (by linarith)⟩
  · rw [if_neg h1, if_neg h2, if_neg h3, if_neg h4, if_neg h5, if_neg h6, if_neg h7, if_pos (le_trans h12 h400)]
    exact ⟨550, p2, rfl, rfl, b7 (by linarith)⟩

theorem svd_lower_bounds (km : ℚ) (h400 : km ≤ 400) :
    ∃ q, calculateSvdValue km = .number q ∧ 290 ≤ q ∧
      (50 < km → 384 ≤ q) ∧
      (100 < km → 395 ≤ q) ∧
      (150 < km → 560 ≤ q) ∧
      (200 < km → 572 ≤ q) ∧
      (250 < km → 580 ≤ q) ∧
      (300 < km → 590 ≤ q) ∧
      (350 < km → 600 ≤ q) := by
  unfold calculateSvdValue
  by_cases h1 : km ≤ 50
  · rw [if_pos h1]
    exact ⟨290, rfl, by decide, fun h => by exfalso; linarith, fun h => by exfalso; linarith, fun h => by exfalso; linarith,
      fun h => by exfalso; linarith, fun h => by exfalso; linarith, fun h => by exfalso; linarith, fun h => by exfalso; linarith⟩
  by_cases h2 : km ≤ 100
  · rw [if_neg h1, if_pos h2]
    exact ⟨384, rfl, by decide, fun _ => by decide, fun h => by exfalso; linarith, fun h => by exfalso; linarith,
      fun h => by exfalso; linarith, fun h => by exfalso; linarith, fun h => by exfalso; linarith, fun h => by exfalso; linarith⟩
  by_cases h3 : km ≤ 150
  · rw [if_neg h1, if_neg h2, if_pos h3]
    exact ⟨395, rfl, by decide, fun _ => by decide, fun _ => by decide, fun h => by exfalso; linarith,
      fun h => by exfalso; linarith, fun h => by exfalso; linarith, fun h => by exfalso; linarith, fun h => by exfalso; linarith⟩
  by_cases h4 : km ≤ 200
  · rw [if_neg h1, if_neg h2, if_neg h3, if_pos h4]
    exact ⟨560, rfl, by decide, fun _ => by decide, fun _ => by decide, fun _ => by decide,
      fun h => by exfalso; linarith, fun h => by exfalso; linarith, fun h => by exfalso; linarith, fun h => by exfalso; linarith⟩
  by_cases h5 : km ≤ 250
  · rw [if_neg h1, if_neg h2, if_neg h3, if_neg h4, if_pos h5]
    exact ⟨572, rfl, by decide, fun _ => by decide, fun _ => by decide, fun _ => by decide,
      fun _ => by decide, fun h => by exfalso; linarith, fun h => by exfalso; linarith, fun h => by exfalso; linarith⟩
  by_cases h6 : km ≤ 300
  · rw [if_neg h1, if_neg h2, if_neg h3, if_neg h4, if_neg h5, if_pos h6]
    exact ⟨580, rfl, by decide, fun _ => by decide, fun _ => by decide, fun _ => by decide,
      fun _ => by decide, fun _ => by decide, fun h => by exfalso; linarith, fun h => by exfalso; linarith⟩
  by_cases h7 : km ≤ 350
  · rw [if_neg h1, if_neg h2, if_neg h3, if_neg h4, if_neg h5, if_neg h6, if_pos h7]
    exact ⟨590, rfl, by decide, fun _ => by decide, fun _ => by decide, fun _ => by decide,
      fun _ => by decide, fun _ => by decide, fun _ => by decide, fun h => by exfalso; linarith⟩
  · rw [if_neg h1, if_neg h2, if_neg h3, if_neg h4, if_neg h5, if_neg h6, if_neg h7, if_pos h400]
    exact ⟨600, rfl, by decide, fun _ => by decide, fun _ => by decide, fun _ => by decide,
      fun _ => by decide, fun _ => by decide, fun _ => by decide, fun _ => by decide⟩

theorem svd_monotone (km1 km2 : ℚ) (h12 : km1 ≤ km2) (h400 : km2 ≤ 400) :
    ∃ q1 q2, calculateSvdValue km1 = .number q1 ∧ calculateSvdValue km2 = .number q2 ∧
      q1 ≤ q2 := by
  obtain ⟨q2, h2, b0, b1, b2, b3, b4, b5, b6, b7⟩ := svd_lower_bounds km2 h400
  rw [h2]
  unfold calculateSvdValue
  by_cases h1 : km1 ≤ 50
  · rw [if_pos h1]
    exact ⟨290, q2, rfl, rfl, b0⟩
  by_cases h2 : km1 ≤ 100
  · rw [if_neg h1, if_pos h2]
    exact ⟨384, q2, rfl, rfl, b1 (by linarith)⟩
  by_cases h3 : km1 ≤ 150
  · rw [if_neg h1, if_neg h2, if_pos h3]
    exact ⟨395, q2, rfl, rfl, b2 (by linarith)⟩
  by_cases h4 : km1 ≤ 200
  · rw [if_neg h1, if_neg h2, if_neg h3, if_pos h4]
    exact ⟨560, q2, rfl, rfl, b3 (by linarith)⟩
  by_cases h5 : km1 ≤ 250
  · rw [if_neg h1, if_neg h2, if_neg h3, if_neg h4, if_pos h5]
    exact ⟨572, q2, rfl, rfl, b4 (by linarith)⟩
  by_cases h6 : km1 ≤ 300
  · rw [if_neg h1, if_neg h2, if_neg h3, if_neg h4, if_neg h5, if_pos h6]
    exact ⟨580, q2, rfl, rfl, b5 (by linarith)⟩
  by_cases h7 : km1 ≤ 350
  · rw [if_neg h1, if_neg h2, if_neg h3, if_neg h4, if_neg h5, if_neg h6, if_pos h7]
    exact ⟨590, q2, rfl, rfl, b6 (by linarith)⟩
  · rw [if_neg h1, if_neg h2, if_neg h3, if_neg h4, if_neg h5, if_neg h6, if_neg h7, if_pos (le_trans h12 h400)]
    exact ⟨600, q2, rfl, rfl, b7 (by linarith)⟩

/-- C8: within each tier the price does not decrease with the distance: for
`km1 ≤ km2 ≤ 400` both results are numbers and the first is at most the second. -/
theorem tier_price_monotone (km1 km2 : ℚ) (h12 : km1 ≤ km2) (h400 : km2 ≤ 400) :
    (∃ p1 p2, calculateStandardValue km1 = .number p1 ∧
      calculateStandardValue km2 = .number p2 ∧ p1 ≤ p2) ∧
    ∃ q1 q2, calculateSvdValue km1 = .number q1 ∧ calculateSvdValue km2 = .number q2 ∧
      q1 ≤ q2 :=
  ⟨standard_monotone km1 km2 h12 h400, svd_monotone km1 km2 h12 h400⟩

/-- Witness of C8 at 70 km and 120 km. -/
theorem tier_price_monotone_witness :
    ((70 : ℚ) ≤ 120 ∧ (120 : ℚ) ≤ 400) ∧
    (∃ p1 p2, calculateStandardValue 70 = .number p1 ∧
      calculateStandardValue 120 = .number p2 ∧ p1 ≤ p2) ∧
    ∃ q1 q2, calculateSvdValue 70 = .number q1 ∧ calculateSvdValue 120 = .number q2 ∧
      q1 ≤ q2 :=
  ⟨⟨by norm_num, by norm_num⟩, tier_price_monotone 70 120 (by norm_num) (by norm_num)⟩

/-- C9: for every distance of at most 400 km both tiers give a number and the SVD price is
at least the standard price. -/
theorem svd_price_ge_standard (km : ℚ) (h400 : km ≤ 400) :
    ∃ p q, calculateStandardValue km = .number p ∧ calculateSvdValue km = .number q ∧
      p ≤ q := by
  unfold calculateStandardValue calculateSvdValue
  split_ifs <;> exact ⟨_, _, rfl, rfl, by decide⟩

/-- Witness of C9 at the threshold 100 km. -/
theorem svd_price_ge_standard_witness :
    (100 : ℚ) ≤ 400 ∧
    ∃ p q, calculateStandardValue 100 = .number p ∧ calculateSvdValue 100 = .number q ∧
      p ≤ q :=
  ⟨by norm_num, svd_price_ge_standard 100 (by norm_num)⟩


/-! ## Normalisation of the city name -/

theorem toNat_ofNat_of_lt {n : ℕ} (h : n < 55296) : (Char.ofNat n).toNat = n := by
  have hv : n.isValidChar := Or.inl h
  unfold Char.ofNat
  rw [dif_pos hv]
  rfl

theorem toUpper_toUpper (c : Char) : c.toUpper.toUpper = c.toUpper := by
  unfold Char.toUpper
  by_cases h : c.toNat ≥ 97 ∧ c.toNat ≤ 122
  · simp only [h, and_self, if_true]
    have e : (Char.ofNat (c.toNat - 32)).toNat = c.toNat - 32 := toNat_ofNat_of_lt (by omega)
    rw [e, if_neg (by omega)]
  · simp only [h, if_false]

theorem toUpper_toLower (c : Char) : c.toLower.toUpper = c.toUpper := by
  unfold Char.toLower
  by_cases h : c.toNat ≥ 65 ∧ c.toNat ≤ 90
  · simp only [h, and_self, if_true]
    unfold Char.toUpper
    have e : (Char.ofNat (c.toNat + 32)).toNat = c.toNat + 32 := toNat_ofNat_of_lt (by omega)
    rw [e, if_pos (by omega), if_neg (by omega)]
    have e2 : c.toNat + 32 - 32 = c.toNat := by omega
    rw [e2, Char.ofNat_toNat]
  · simp only [h, if_false]

theorem toUpper_of_isWhiteSpace {c : Char} (h : isWhiteSpace c = true) : c.toUpper = c := by
  unfold Char.toUpper
  have hn : ¬ (c.toNat ≥ 97 ∧ c.toNat ≤ 122) := by
    unfold isWhiteSpace at h
    simp only [List.mem_cons, List.mem_singleton, List.not_mem_nil, or_false,
      Bool.or_eq_true, Bool.and_eq_true, decide_eq_true_eq] at h
    omega
  simp only [hn, if_false]

theorem trim_mk_append (before core after : List Char)
    (hb : ∀ c ∈ before, isWhiteSpace c = true) (ha : ∀ c ∈ after, isWhiteSpace c = true) :
    trim ⟨before ++ core ++ after⟩ = trim ⟨core⟩ := by
  unfold trim
  congr 1
  have har : ∀ c ∈ after.reverse, isWhiteSpace c = true := fun c hc =>
    ha c (List.mem_reverse.1 hc)
  rw [List.append_assoc, List.dropWhile_append_of_pos hb, List.dropWhile_append]
  by_cases he : (List.dropWhile isWhiteSpace core).isEmpty = true
  · rw [if_pos he]
    have h1 : List.dropWhile isWhiteSpace after = [] := List.dropWhile_eq_nil_iff.2 ha
    have h2 : List.dropWhile isWhiteSpace core = [] := List.isEmpty_iff.1 he
    rw [h1, h2]
  · rw [if_neg he, List.reverse_append, List.dropWhile_append_of_pos har]

theorem trim_asciiToUpperCase_append (before city after : String)
    (hb : ∀ c ∈ before.data, isWhiteSpace c = true)
    (ha : ∀ c ∈ after.data, isWhiteSpace c = true) :
    trim (asciiToUpperCase (before ++ city ++ after)) = trim (asciiToUpperCase city) := by
  have e : asciiToUpperCase (before ++ city ++ after)
      = ⟨before.data.map Char.toUpper ++ city.data.map Char.toUpper
          ++ after.data.map Char.toUpper⟩ := by
    unfold asciiToUpperCase
    rw [String.data_append, String.data_append, List.map_append, List.map_append]
  rw [e]
  apply trim_mk_append
  · intro c hc
    obtain ⟨d, hd, rfl⟩ := List.mem_map.1 hc
    rw [toUpper_of_isWhiteSpace (hb d hd)]; exact hb d hd
  · intro c hc
    obtain ⟨d, hd, rfl⟩ := List.mem_map.1 hc
    rw [toUpper_of_isWhiteSpace (ha d hd)]; exact ha d hd

theorem asciiToUpperCase_idem (s : String) :
    asciiToUpperCase (asciiToUpperCase s) = asciiToUpperCase s := by
  unfold asciiToUpperCase
  simp only [List.map_map]
  congr 1
  apply List.map_congr_left
  intro c _
  exact toUpper_toUpper c

theorem asciiToUpperCase_map_toLower (s : String) :
    asciiToUpperCase (s.map Char.toLower) = asciiToUpperCase s := by
  unfold asciiToUpperCase
  have e : (s.map Char.toLower).data = s.data.map Char.toLower := by
    simp [String.map_eq]
  rw [e, List.map_map]
  congr 1
  apply List.map_congr_left
  intro c _
  exact toUpper_toLower c

theorem calculateFullServiceValue_congr (toUpperCase : String → String)
    {city other : String} (notes : String)
    (h : trim (toUpperCase other) = trim (toUpperCase city)) :
    calculateFullServiceValue toUpperCase other notes =
      calculateFullServiceValue toUpperCase city notes := by
  unfold calculateFullServiceValue
  simp only [h]

theorem calculateFullServiceValue_of_lookup_none (toUpperCase : String → String)
    {city : String} (notes : String)
    (h : DISTANCES.lookup (trim (toUpperCase city)) = none) :
    calculateFullServiceValue toUpperCase city notes = .text "City not in fixed rate table" := by
  simp only [calculateFullServiceValue, h]

theorem calculateFullServiceValue_of_lookup_some (toUpperCase : String → String)
    {city : String} (notes : String) {km : ℚ}
    (h : DISTANCES.lookup (trim (toUpperCase city)) = some km) :
    calculateFullServiceValue toUpperCase city notes =
      if trim (toUpperCase notes) = SVD_KEYWORD then calculateSvdValue km
      else calculateStandardValue km := by
  simp only [calculateFullServiceValue, h]

theorem tier_value_ne_city_tag (km : ℚ) :
    calculateStandardValue km ≠ .text "City not in fixed rate table" ∧
    calculateSvdValue km ≠ .text "City not in fixed rate table" := by
  constructor
  · unfold calculateStandardValue
    split_ifs <;> simp
  · unfold calculateSvdValue
    split_ifs <;> simp

theorem mapCodePoints_append (mapping : Char → List Char) (s t : String) :
    mapCodePoints mapping (s ++ t) = mapCodePoints mapping s ++ mapCodePoints mapping t := by
  unfold mapCodePoints
  apply String.ext
  simp [String.data_append, List.flatMap_append]

theorem flatMap_of_whiteSpace {mapping : Char → List Char}
    (hws : ∀ c, isWhiteSpace c = true → mapping c = [c]) {l : List Char}
    (hl : ∀ c ∈ l, isWhiteSpace c = true) : l.flatMap mapping = l := by
  induction l with
  | nil => rfl
  | cons a l ih =>
    rw [List.flatMap_cons, hws a (hl a (List.mem_cons_self a l)),
      ih (fun c hc => hl c (List.mem_cons_of_mem a hc))]
    rfl

theorem trim_mapCodePoints_append {mapping : Char → List Char}
    (hws : ∀ c, isWhiteSpace c = true → mapping c = [c]) (before city after : String)
    (hb : ∀ c ∈ before.data, isWhiteSpace c = true)
    (ha : ∀ c ∈ after.data, isWhiteSpace c = true) :
    trim (mapCodePoints mapping (before ++ city ++ after)) =
      trim (mapCodePoints mapping city) := by
  have e : mapCodePoints mapping (before ++ city ++ after)
      = ⟨before.data ++ city.data.flatMap mapping ++ after.data⟩ := by
    unfold mapCodePoints
    rw [String.data_append, String.data_append, List.flatMap_append, List.flatMap_append,
      flatMap_of_whiteSpace hws hb, flatMap_of_whiteSpace hws ha]
  rw [e]
  exact trim_mk_append before.data _ after.data hb ha

theorem toLower_lt_of_lt {c : Char} (h : c.toNat < 128) : c.toLower.toNat < 128 := by
  unfold Char.toLower
  by_cases hc : c.toNat ≥ 65 ∧ c.toNat ≤ 90
  · simp only [hc, and_self, if_true]
    rw [toNat_ofNat_of_lt (by omega)]
    omega
  · simp only [hc, if_false]
    exact h

theorem toUpper_lt_of_lt {c : Char} (h : c.toNat < 128) : c.toUpper.toNat < 128 := by
  unfold Char.toUpper
  by_cases hc : c.toNat ≥ 97 ∧ c.toNat ≤ 122
  · simp only [hc, and_self, if_true]
    rw [toNat_ofNat_of_lt (by omega)]
    omega
  · simp only [hc, if_false]
    exact h

theorem mapCodePoints_map_of_ascii {mapping : Char → List Char}
    (hascii : ∀ c : Char, c.toNat < 128 → mapping c = [c.toUpper]) (change : Char → Char)
    (hsmall : ∀ c : Char, c.toNat < 128 → (change c).toNat < 128)
    (hchange : ∀ c : Char, (change c).toUpper = c.toUpper) (s : String)
    (hs : ∀ c ∈ s.data, c.toNat < 128) :
    mapCodePoints mapping (s.map change) = mapCodePoints mapping s := by
  unfold mapCodePoints
  have e : (s.map change).data = s.data.map change := by simp [String.map_eq]
  rw [e]
  congr 1
  generalize s.data = l at hs
  induction l with
  | nil => rfl
  | cons a l ih =>
    have ha : a.toNat < 128 := hs a (List.mem_cons_self a l)
    rw [List.map_cons, List.flatMap_cons, List.flatMap_cons,
      ih (fun c hc => hs c (List.mem_cons_of_mem a hc)), hascii a ha,
      hascii (change a) (hsmall a ha), hchange a]

/-- C7, amended: `calculateFullServiceValue` depends on the city only through its
upper-cased and trimmed form: two cities with the same form give the same result. It returns
the tag "City not in fixed rate table" exactly when that form is not a key of `DISTANCES`,
and the tag differs from every number. For every upper-casing that maps each code point on
its own and leaves white space unchanged, surrounding white space does not change the
result; when it maps ASCII characters as `Char.toUpper`, lower-casing or upper-casing the
letters of an all-ASCII city does not change the result. -/
theorem city_lookup_uses_normalised_key (toUpperCase : String → String)
    (city notes : String) :
    (∀ other : String, trim (toUpperCase other) = trim (toUpperCase city) →
      calculateFullServiceValue toUpperCase other notes =
        calculateFullServiceValue toUpperCase city notes) ∧
    (calculateFullServiceValue toUpperCase city notes = .text "City not in fixed rate table" ↔
      trim (toUpperCase city) ∉ DISTANCES.map Prod.fst) ∧
    (∀ n : ℕ, Value.number n ≠ .text "City not in fixed rate table") ∧
    (∀ mapping : Char → List Char, (∀ c, isWhiteSpace c = true → mapping c = [c]) →
      ∀ before after : String, (∀ c ∈ before.data, isWhiteSpace c = true) →
        (∀ c ∈ after.data, isWhiteSpace c = true) →
        calculateFullServiceValue (mapCodePoints mapping) (before ++ city ++ after) notes =
          calculateFullServiceValue (mapCodePoints mapping) city notes) ∧
    (∀ mapping : Char → List Char, (∀ c : Char, c.toNat < 128 → mapping c = [c.toUpper]) →
      (∀ c ∈ city.data, c.toNat < 128) →
        calculateFullServiceValue (mapCodePoints mapping) (city.map Char.toLower) notes =
          calculateFullServiceValue (mapCodePoints mapping) city notes ∧
        calculateFullServiceValue (mapCodePoints mapping) (city.map Char.toUpper) notes =
          calculateFullServiceValue (mapCodePoints mapping) city notes) := by
  refine ⟨fun other h => calculateFullServiceValue_congr toUpperCase notes h, ?_,
    fun n h => Value.noConfusion h, ?_, ?_⟩
  · have hkey : trim (toUpperCase city) ∉ DISTANCES.map Prod.fst ↔
        DISTANCES.lookup (trim (toUpperCase city)) = none := by
      rw [List.lookup_eq_none_iff]
      simp only [List.mem_map, not_exists, not_and, bne_iff_ne, ne_eq]
      constructor
      · intro h p hp hk
        exact h p hp hk.symm
      · intro h p hp hk
        exact h p hp hk.symm
    rw [hkey]
    cases hl : DISTANCES.lookup (trim (toUpperCase city)) with
    | none =>
      rw [calculateFullServiceValue_of_lookup_none toUpperCase notes hl]
      simp
    | some km =>
      rw [calculateFullServiceValue_of_lookup_some toUpperCase notes hl]
      simp only [reduceCtorEq, iff_false]
      split_ifs
      · exact (tier_value_ne_city_tag km).2
      · exact (tier_value_ne_city_tag km).1
  · intro mapping hws before after hb ha
    exact calculateFullServiceValue_congr (mapCodePoints mapping) notes
      (trim_mapCodePoints_append hws before city after hb ha)
  · intro mapping hascii hcity
    constructor
    · exact calculateFullServiceValue_congr (mapCodePoints mapping) notes
        (by rw [mapCodePoints_map_of_ascii hascii Char.toLower
          (fun c h => toLower_lt_of_lt h) toUpper_toLower city hcity])
    · exact calculateFullServiceValue_congr (mapCodePoints mapping) notes
        (by rw [mapCodePoints_map_of_ascii hascii Char.toUpper
          (fun c h => toUpper_lt_of_lt h) toUpper_toUpper city hcity])

/-- C7 as stated fails on a change of letter case: the city `kelvinMarkham` upper-cases to
itself, which is not a key of `DISTANCES`, and gets the tag; its lower-cased form is
"markham", which upper-cases to "MARKHAM" and gets 140. On both strings `asciiToUpperCase`
is the host `toUpperCase`. -/
theorem case_change_counterexample :
    asciiToUpperCase kelvinMarkham = kelvinMarkham ∧
    kelvinToLowerCase kelvinMarkham = "markham" ∧
    asciiToUpperCase "markham" = "MARKHAM" ∧
    calculateFullServiceValue asciiToUpperCase kelvinMarkham "" =
      .text "City not in fixed rate table" ∧
    calculateFullServiceValue asciiToUpperCase (kelvinToLowerCase kelvinMarkham) "" =
      .number 140 := by
  refine ⟨by decide, by decide, by decide, by decide, by decide⟩

/-- Witness of C7 as amended for the upper-casing that applies `Char.toUpper` to each code
point: the city " Hamilton " and the lower-cased "hamilton" give the result of "Hamilton". -/
theorem city_lookup_uses_normalised_key_witness :
    calculateFullServiceValue (mapCodePoints fun c => [c.toUpper])
        (" " ++ "Hamilton" ++ " ") "" =
      calculateFullServiceValue (mapCodePoints fun c => [c.toUpper]) "Hamilton" "" ∧
    calculateFullServiceValue (mapCodePoints fun c => [c.toUpper])
        ("Hamilton".map Char.toLower) "" =
      calculateFullServiceValue (mapCodePoints fun c => [c.toUpper]) "Hamilton" "" :=
  ⟨(city_lookup_uses_normalised_key asciiToUpperCase "Hamilton" "").2.2.2.1
      (fun c => [c.toUpper]) (fun c h => congrArg (fun d => [d]) (toUpper_of_isWhiteSpace h)) " " " "
      (by decide) (by decide),
    ((city_lookup_uses_normalised_key asciiToUpperCase "Hamilton" "").2.2.2.2
      (fun c => [c.toUpper]) (fun _ _ => rfl) (by decide)).1⟩

/-! ## Failed distance queries -/

theorem furthestJob_max {dist : String → String → ℕ} {jobs : List Job} {F : JobWithDistance}
    (hF : furthestJob dist jobs = some F) :
    ∀ K ∈ jobs, dist BASE_CITY K.city ≤ F.distanceFromBase := by
  have hne : jobs ≠ [] := by
    intro h; rw [h] at hF; cases hF
  obtain ⟨pre, anchor, post, hdec, hhead, hpre, hpost⟩ := furthestJob_decomposition dist jobs hne
  rw [hhead] at hF
  have hFe : withDistance dist anchor = F := Option.some.inj hF
  intro K hK
  rw [← hFe, hdec] at *
  rcases List.mem_append.1 hK with h | h
  · exact le_of_lt (hpre K h)
  · rcases List.mem_cons.1 h with h | h
    · rw [h]; exact le_refl _
    · exact hpost K h

theorem divisor_of_divide_mem (toUpperCase : String → String) (dist : String → String → ℕ)
    (jobs : List Job) (F : JobWithDistance) (hlen : 2 ≤ jobs.length)
    (hF : furthestJob dist jobs = some F) (d : ℕ)
    (hd : Effect.divide d ∈ processDailyJobs toUpperCase dist jobs) :
    d = F.distanceFromBase ∧ d ≠ 0 ∧ d < 999999990 := by
  rw [processDailyJobs_of_two_le toUpperCase dist jobs F hlen hF] at hd
  rcases List.mem_append.1 hd with h | h
  · simp at h
  · obtain ⟨x, -, hmem⟩ := List.mem_flatMap.1 h
    by_cases h1 : x.row = F.row
    · rw [priceJob_anchor toUpperCase dist h1] at hmem
      simp at hmem
    · by_cases h2 : F.distanceFromBase = 0 ∨ 999999990 ≤ F.distanceFromBase
      · rw [priceJob_degraded toUpperCase dist h1 h2] at hmem
        simp at hmem
      · rw [priceJob_satellite toUpperCase dist h1 (by omega) (by omega)] at hmem
        simp at hmem
        exact ⟨hmem, by omega, by omega⟩

theorem value_of_degraded_run (toUpperCase : String → String) (dist : String → String → ℕ)
    (jobs : List Job) (F : JobWithDistance) (hlen : 2 ≤ jobs.length)
    (hrows : (jobs.map Job.row).Nodup) (hF : furthestJob dist jobs = some F)
    (hbad : F.distanceFromBase = 0 ∨ 999999990 ≤ F.distanceFromBase)
    (K : Job) (hK : K ∈ jobs) (v : Value) :
    Effect.setValue K.row v ∈ processDailyJobs toUpperCase dist jobs ↔
      v = calculateFullServiceValue toUpperCase K.city K.notes := by
  rw [setValue_mem_processDailyJobs toUpperCase dist jobs F hlen hrows hF K hK v]
  by_cases hrow : K.row = F.row
  · rw [priceJob_anchor toUpperCase dist (j := withDistance dist K) hrow]
    simp [withDistance]
  · rw [priceJob_degraded toUpperCase dist (j := withDistance dist K) hrow hbad]
    simp [withDistance]

/-- C11, amended: in a day plan with at least two jobs on distinct rows and a furthest distance
`D` that is non-zero and below 999999990, a job other than the furthest whose pairwise query
returns 999999999 is written its `calculateFullServiceValue`, provided
`5 * D ≤ 4 * (distance(base, J) + 999999999)`; this holds whenever `D ≤ 799999999`. -/
theorem failed_leg_gives_full_value (toUpperCase : String → String)
    (dist : String → String → ℕ) (jobs : List Job) (F : JobWithDistance)
    (hlen : 2 ≤ jobs.length) (hrows : (jobs.map Job.row).Nodup)
    (hF : furthestJob dist jobs = some F) (J : Job) (hJ : J ∈ jobs) (hrow : J.row ≠ F.row)
    (hD0 : F.distanceFromBase ≠ 0) (hD : F.distanceFromBase < 999999990)
    (hleg : dist J.city F.city = 999999999)
    (hfar : 5 * F.distanceFromBase ≤ 4 * (dist BASE_CITY J.city + 999999999)) :
    (F.distanceFromBase ≤ 799999999 →
      5 * F.distanceFromBase ≤ 4 * (dist BASE_CITY J.city + 999999999)) ∧
    ∀ v, Effect.setValue J.row v ∈ processDailyJobs toUpperCase dist jobs ↔
      v = calculateFullServiceValue toUpperCase J.city J.notes := by
  refine ⟨fun h => by omega, fun v => ?_⟩
  rw [satellite_value toUpperCase dist jobs F hlen hrows hF J hJ hrow hD0 hD v, hleg,
    if_neg (by omega)]

/-- Witness of C11 as amended: with base distances 10,000 m and 40,000 m and a failing query
from Oshawa to Hamilton, row 4 receives 260, the full value of Oshawa. -/
theorem failed_leg_gives_full_value_witness :
    (2 ≤ examplePlan.length ∧ (examplePlan.map Job.row).Nodup ∧
      furthestJob failedLegDistance examplePlan = some ⟨⟨5, "Hamilton", ""⟩, 40000⟩ ∧
      failedLegDistance "Oshawa" "Hamilton" = 999999999) ∧
    Effect.setValue 4 (.number 260) ∈
      processDailyJobs asciiToUpperCase failedLegDistance examplePlan :=
  ⟨⟨by decide, by decide, by decide, by decide⟩,
    ((failed_leg_gives_full_value asciiToUpperCase failedLegDistance examplePlan
      ⟨⟨5, "Hamilton", ""⟩, 40000⟩ (by decide) (by decide) (by decide) ⟨4, "Oshawa", ""⟩
      (by decide) (by decide) (by decide) (by decide) (by decide) (by decide)).2
        (.number 260)).2 (by decide)⟩

/-- C11 as stated fails: with a furthest distance of 900,000,000 m, usable for the code, and
a failing query from Oshawa to Hamilton, the detour is
`(10000 + 999999999) / 900000000 - 1`, about 0.11, and row 4 receives the flat minimum 140
and not 260, the full value of Oshawa. -/
theorem failed_leg_far_anchor_counterexample :
    furthestJob farDistance examplePlan = some ⟨⟨5, "Hamilton", ""⟩, 900000000⟩ ∧
    farDistance "Oshawa" "Hamilton" = 999999999 ∧
    calculateFullServiceValue asciiToUpperCase "Oshawa" "" = .number 260 ∧
    Effect.setValue 4 (.number 140) ∈ processDailyJobs asciiToUpperCase farDistance examplePlan ∧
    Effect.setValue 4 (.number 260) ∉
      processDailyJobs asciiToUpperCase farDistance examplePlan := by
  have h := satellite_value asciiToUpperCase farDistance examplePlan
    ⟨⟨5, "Hamilton", ""⟩, 900000000⟩ (by decide) (by decide) (by decide) ⟨4, "Oshawa", ""⟩
    (by decide) (by decide) (by decide) (by decide)
  refine ⟨by decide, by decide, by decide, (h _).2 (by decide), fun hc => ?_⟩
  have := (h _).1 hc
  revert this
  decide


/-- C12, amended: in a day plan with at least two jobs on distinct rows, when the base query
of some job returns 999999999 the furthest job has a distance of at least 999999999, equal
to 999999999 when no base distance exceeds it; every job of the plan is written its
`calculateFullServiceValue` and the run performs no division. -/
theorem failed_base_query_gives_full_values (toUpperCase : String → String)
    (dist : String → String → ℕ) (jobs : List Job) (F : JobWithDistance)
    (hlen : 2 ≤ jobs.length) (hrows : (jobs.map Job.row).Nodup)
    (hF : furthestJob dist jobs = some F) (J : Job) (hJ : J ∈ jobs)
    (hfail : dist BASE_CITY J.city = 999999999) :
    999999999 ≤ F.distanceFromBase ∧
    ((∀ K ∈ jobs, dist BASE_CITY K.city ≤ 999999999) → F.distanceFromBase = 999999999) ∧
    (∀ K ∈ jobs, ∀ v, Effect.setValue K.row v ∈ processDailyJobs toUpperCase dist jobs ↔
      v = calculateFullServiceValue toUpperCase K.city K.notes) ∧
    ∀ d, Effect.divide d ∉ processDailyJobs toUpperCase dist jobs := by
  have hge : 999999999 ≤ F.distanceFromBase := by
    have := furthestJob_max hF J hJ
    omega
  refine ⟨hge, ?_, ?_, ?_⟩
  · intro hall
    obtain ⟨A, hA, hAF⟩ := furthestJob_mem hF
    have := hall A hA
    have e : F.distanceFromBase = dist BASE_CITY A.city := by rw [← hAF]; rfl
    omega
  · intro K hK v
    exact value_of_degraded_run toUpperCase dist jobs F hlen hrows hF (Or.inr (by omega)) K hK v
  · intro d hd
    have := divisor_of_divide_mem toUpperCase dist jobs F hlen hF d hd
    omega

/-- Witness of C12 as amended: when every query fails, both rows of the example plan receive
260, the full values of Oshawa and Hamilton. -/
theorem failed_base_query_gives_full_values_witness :
    (2 ≤ examplePlan.length ∧ (examplePlan.map Job.row).Nodup ∧
      furthestJob failingDistance examplePlan = some ⟨⟨4, "Oshawa", ""⟩, 999999999⟩ ∧
      failingDistance BASE_CITY "Hamilton" = 999999999) ∧
    Effect.setValue 4 (.number 260) ∈
      processDailyJobs asciiToUpperCase failingDistance examplePlan ∧
    Effect.setValue 5 (.number 260) ∈
      processDailyJobs asciiToUpperCase failingDistance examplePlan :=
  ⟨⟨by decide, by decide, by decide, by decide⟩,
    ((failed_base_query_gives_full_values asciiToUpperCase failingDistance examplePlan
      ⟨⟨4, "Oshawa", ""⟩, 999999999⟩ (by decide) (by decide) (by decide) ⟨5, "Hamilton", ""⟩
      (by decide) (by decide)).2.2.1 ⟨4, "Oshawa", ""⟩ (by decide) (.number 260)).2 (by decide),
    ((failed_base_query_gives_full_values asciiToUpperCase failingDistance examplePlan
      ⟨⟨4, "Oshawa", ""⟩, 999999999⟩ (by decide) (by decide) (by decide) ⟨5, "Hamilton", ""⟩
      (by decide) (by decide)).2.2.1 ⟨5, "Hamilton", ""⟩ (by decide) (.number 260)).2
        (by decide)⟩

/-- C12 as stated fails: the base query of Oshawa returns 999999999 while Hamilton is at
1,500,000,000 m; the furthest job is Hamilton, whose distance is not 999999999, and no job
at distance 999999999 passes the row test of the furthest job. -/
theorem failed_base_query_counterexample :
    overSentinelDistance BASE_CITY "Oshawa" = 999999999 ∧
    furthestJob overSentinelDistance examplePlan = some ⟨⟨5, "Hamilton", ""⟩, 1500000000⟩ ∧
    ∀ F, furthestJob overSentinelDistance examplePlan = some F →
      F.distanceFromBase ≠ 999999999 := by
  refine ⟨by decide, by decide, ?_⟩
  intro F hF
  have e : furthestJob overSentinelDistance examplePlan
      = some ⟨⟨5, "Hamilton", ""⟩, 1500000000⟩ := by decide
  rw [e] at hF
  cases hF
  decide

/-- C13, amended: for a city whose normalised name is "HAMILTON" (reference distance 70 km)
and notes that are not the SVD keyword, `calculateFullServiceValue` returns 260, the price
of the threshold 100 km. -/
theorem hamilton_standard_value (toUpperCase : String → String) (city notes : String)
    (hcity : trim (toUpperCase city) = "HAMILTON")
    (hnotes : trim (toUpperCase notes) ≠ SVD_KEYWORD) :
    DISTANCES.lookup "HAMILTON" = some 70 ∧
    calculateFullServiceValue toUpperCase city notes = .number 260 := by
  have hl : DISTANCES.lookup (trim (toUpperCase city)) = some 70 := by
    rw [hcity]; decide
  refine ⟨by decide, ?_⟩
  rw [calculateFullServiceValue_of_lookup_some toUpperCase notes hl, if_neg hnotes]
  decide

/-- Witness of C13 as amended at the city "Hamilton" with empty notes. -/
theorem hamilton_standard_value_witness :
    (trim (asciiToUpperCase "Hamilton") = "HAMILTON" ∧
      trim (asciiToUpperCase "") ≠ SVD_KEYWORD) ∧
    DISTANCES.lookup "HAMILTON" = some 70 ∧
    calculateFullServiceValue asciiToUpperCase "Hamilton" "" = .number 260 :=
  ⟨⟨by decide, by decide⟩,
    hamilton_standard_value asciiToUpperCase "Hamilton" "" (by decide) (by decide)⟩

/-- C13 as stated fails: the value of "Hamilton" with empty notes is not 140. -/
theorem hamilton_not_lowest_price :
    calculateFullServiceValue asciiToUpperCase "Hamilton" "" ≠ .number 140 := by
  decide


/-! ## Bounds on the written values -/

theorem mem_of_lookup_eq_some {k : String} {v : ℚ} {l : List (String × ℚ)}
    (h : l.lookup k = some v) : (k, v) ∈ l := by
  obtain ⟨l₁, l₂, hl, -⟩ := List.lookup_eq_some_iff.1 h
  rw [hl]; simp

theorem lookup_of_full_value_number {toUpperCase : String → String} {city notes : String}
    {f : ℕ} (h : calculateFullServiceValue toUpperCase city notes = .number f) :
    ∃ km, DISTANCES.lookup (trim (toUpperCase city)) = some km := by
  cases hl : DISTANCES.lookup (trim (toUpperCase city)) with
  | none =>
    rw [calculateFullServiceValue_of_lookup_none toUpperCase notes hl] at h
    cases h
  | some km => exact ⟨km, rfl⟩

theorem written_value_cases (toUpperCase : String → String) (dist : String → String → ℕ)
    (jobs : List Job) (F : JobWithDistance) (hlen : 2 ≤ jobs.length)
    (hrows : (jobs.map Job.row).Nodup) (hF : furthestJob dist jobs = some F)
    (J : Job) (hJ : J ∈ jobs) (v : Value)
    (hv : Effect.setValue J.row v ∈ processDailyJobs toUpperCase dist jobs) :
    v = minimumValue toUpperCase J.notes ∨
      v = calculateFullServiceValue toUpperCase J.city J.notes := by
  by_cases hrow : J.row = F.row
  · rw [setValue_mem_processDailyJobs toUpperCase dist jobs F hlen hrows hF J hJ v,
      priceJob_anchor toUpperCase dist (j := withDistance dist J) hrow] at hv
    simp [withDistance] at hv
    exact Or.inr hv
  · by_cases hbad : F.distanceFromBase = 0 ∨ 999999990 ≤ F.distanceFromBase
    · exact Or.inr ((value_of_degraded_run toUpperCase dist jobs F hlen hrows hF hbad J hJ v).1
        hv)
    · rw [satellite_value toUpperCase dist jobs F hlen hrows hF J hJ hrow (by omega) (by omega)
        v] at hv
      split_ifs at hv
      · exact Or.inl hv
      · exact Or.inr hv

theorem standard_eq_lowest_iff (km : ℚ) :
    calculateStandardValue km = .number 140 ↔ km ≤ 50 := by
  unfold calculateStandardValue
  by_cases h : km ≤ 50
  · simp [h]
  · simp only [h, if_false, iff_false]
    split_ifs <;> simp

theorem svd_eq_lowest_iff (km : ℚ) : calculateSvdValue km = .number 290 ↔ km ≤ 50 := by
  unfold calculateSvdValue
  by_cases h : km ≤ 50
  · simp [h]
  · simp only [h, if_false, iff_false]
    split_ifs <;> simp

theorem standard_number_ge (km : ℚ) (q : ℕ) (h : calculateStandardValue km = .number q) :
    140 ≤ q := by
  unfold calculateStandardValue at h
  split_ifs at h <;> cases h <;> decide

theorem svd_number_ge (km : ℚ) (q : ℕ) (h : calculateSvdValue km = .number q) :
    290 ≤ q := by
  unfold calculateSvdValue at h
  split_ifs at h <;> cases h <;> decide

/-- C18: in a day plan with at least two jobs on distinct rows, for a job whose
`calculateFullServiceValue` is a number `f`, every value written on its row is a number of
at most `f`: it is `f` or the flat minimum `m` of the tier of the job, `m` is 140 or 290
and is a lower bound of every numeric price of that tier, and `m = f` exactly when the
reference distance of the city is at most 50 km. -/
theorem written_value_le_full_value (toUpperCase : String → String)
    (dist : String → String → ℕ) (jobs : List Job) (hlen : 2 ≤ jobs.length)
    (hrows : (jobs.map Job.row).Nodup) (J : Job) (hJ : J ∈ jobs) (f : ℕ)
    (hfull : calculateFullServiceValue toUpperCase J.city J.notes = .number f) :
    ∃ m km, minimumValue toUpperCase J.notes = .number m ∧
      DISTANCES.lookup (trim (toUpperCase J.city)) = some km ∧
      (m = if trim (toUpperCase J.notes) = SVD_KEYWORD then 290 else 140) ∧
      (∀ km2 q, (if trim (toUpperCase J.notes) = SVD_KEYWORD then calculateSvdValue km2
          else calculateStandardValue km2) = .number q → m ≤ q) ∧
      m ≤ f ∧ (m = f ↔ km ≤ 50) ∧
      ∀ v, Effect.setValue J.row v ∈ processDailyJobs toUpperCase dist jobs →
        (v = .number m ∨ v = .number f) ∧ ∃ p, v = .number p ∧ p ≤ f := by
  obtain ⟨km, hl⟩ := lookup_of_full_value_number hfull
  have hne : jobs ≠ [] := by
    intro h; rw [h] at hlen; simp at hlen
  obtain ⟨_, anchor, _, -, hF, -, -⟩ := furthestJob_decomposition dist jobs hne
  have hcases := written_value_cases toUpperCase dist jobs _ hlen hrows hF J hJ
  have htier := hfull
  rw [calculateFullServiceValue_of_lookup_some toUpperCase J.notes hl] at htier
  by_cases hs : trim (toUpperCase J.notes) = SVD_KEYWORD
  · rw [if_pos hs] at htier
    have hm : minimumValue toUpperCase J.notes = .number 290 := by
      unfold minimumValue; rw [if_pos hs]
    have hle : 290 ≤ f := svd_number_ge km f htier
    refine ⟨290, km, hm, hl, by rw [if_pos hs], ?_, hle, ?_, ?_⟩
    · intro km2 q hq
      rw [if_pos hs] at hq
      exact svd_number_ge km2 q hq
    · constructor
      · intro h
        rw [← h] at htier
        exact (svd_eq_lowest_iff km).1 htier
      · intro h
        have := (svd_eq_lowest_iff km).2 h
        rw [htier] at this
        exact (Value.number.inj this).symm
    · intro v hv
      rcases hcases v hv with h | h
      · rw [hm] at h
        exact ⟨Or.inl h, 290, h, hle⟩
      · rw [hfull] at h
        exact ⟨Or.inr h, f, h, le_refl f⟩
  · rw [if_neg hs] at htier
    have hm : minimumValue toUpperCase J.notes = .number 140 := by
      unfold minimumValue; rw [if_neg hs]
    have hle : 140 ≤ f := standard_number_ge km f htier
    refine ⟨140, km, hm, hl, by rw [if_neg hs], ?_, hle, ?_, ?_⟩
    · intro km2 q hq
      rw [if_neg hs] at hq
      exact standard_number_ge km2 q hq
    · constructor
      · intro h
        rw [← h] at htier
        exact (standard_eq_lowest_iff km).1 htier
      · intro h
        have := (standard_eq_lowest_iff km).2 h
        rw [htier] at this
        exact (Value.number.inj this).symm
    · intro v hv
      rcases hcases v hv with h | h
      · rw [hm] at h
        exact ⟨Or.inl h, 140, h, hle⟩
      · rw [hfull] at h
        exact ⟨Or.inr h, f, h, le_refl f⟩

/-- Witness of C18 on the worked example: Oshawa on row 4 has the full value 260 and is
written the flat minimum 140. -/
theorem written_value_le_full_value_witness :
    (2 ≤ examplePlan.length ∧ (examplePlan.map Job.row).Nodup ∧
      calculateFullServiceValue asciiToUpperCase "Oshawa" "" = .number 260) ∧
    ∃ m km, minimumValue asciiToUpperCase "" = .number m ∧
      DISTANCES.lookup (trim (asciiToUpperCase "Oshawa")) = some km ∧
      (m = if trim (asciiToUpperCase "") = SVD_KEYWORD then 290 else 140) ∧
      (∀ km2 q, (if trim (asciiToUpperCase "") = SVD_KEYWORD then calculateSvdValue km2
          else calculateStandardValue km2) = .number q → m ≤ q) ∧
      m ≤ 260 ∧ (m = 260 ↔ km ≤ 50) ∧
      ∀ v, Effect.setValue 4 v ∈ processDailyJobs asciiToUpperCase exampleDistance examplePlan →
        (v = .number m ∨ v = .number 260) ∧ ∃ p, v = .number p ∧ p ≤ 260 :=
  ⟨⟨by decide, by decide, by decide⟩,
    written_value_le_full_value asciiToUpperCase exampleDistance examplePlan (by decide)
      (by decide) ⟨4, "Oshawa", ""⟩ (by decide) 260 (by decide)⟩

/-! ## Independence of the sheet order -/

theorem setValue_mem_iff_exists (toUpperCase : String → String) (dist : String → String → ℕ)
    (jobs : List Job) (F : JobWithDistance) (hlen : 2 ≤ jobs.length)
    (hF : furthestJob dist jobs = some F) (r : ℕ) (v : Value) :
    Effect.setValue r v ∈ processDailyJobs toUpperCase dist jobs ↔
      ∃ J ∈ jobs, Effect.setValue r v ∈ priceJob toUpperCase dist F (withDistance dist J) := by
  rw [processDailyJobs_of_two_le toUpperCase dist jobs F hlen hF]
  constructor
  · intro h
    rcases List.mem_append.1 h with h | h
    · simp at h
    · obtain ⟨x, hx, hmem⟩ := List.mem_flatMap.1 h
      obtain ⟨K, hK, rfl⟩ := mem_jobsWithDistances.1 hx
      exact ⟨K, hK, hmem⟩
  · rintro ⟨J, hJ, h⟩
    exact List.mem_append.2 (Or.inr (List.mem_flatMap.2
      ⟨withDistance dist J, mem_jobsWithDistances.2 ⟨J, hJ, rfl⟩, h⟩))

/-- C19: for two day plans that are permutations of one another, with at least two jobs and
a single job at maximal distance from the base, and the same distance function, the runs
write the same values on the same rows. -/
theorem written_values_independent_of_order (toUpperCase : String → String)
    (dist : String → String → ℕ) (jobs1 jobs2 : List Job) (hperm : jobs1.Perm jobs2)
    (hlen : 2 ≤ jobs1.length)
    (hunique : ∀ A ∈ jobs1, ∀ B ∈ jobs1,
      (∀ K ∈ jobs1, dist BASE_CITY K.city ≤ dist BASE_CITY A.city) →
      (∀ K ∈ jobs1, dist BASE_CITY K.city ≤ dist BASE_CITY B.city) → A = B) :
    furthestJob dist jobs1 = furthestJob dist jobs2 ∧
    ∀ r v, Effect.setValue r v ∈ processDailyJobs toUpperCase dist jobs1 ↔
      Effect.setValue r v ∈ processDailyJobs toUpperCase dist jobs2 := by
  have hlen2 : 2 ≤ jobs2.length := by rw [← hperm.length_eq]; exact hlen
  have hne1 : jobs1 ≠ [] := by
    intro h; rw [h] at hlen; simp at hlen
  have hne2 : jobs2 ≠ [] := by
    intro h; rw [h] at hlen2; simp at hlen2
  obtain ⟨p1, A, q1, hd1, hF1, hp1, hq1⟩ := furthestJob_decomposition dist jobs1 hne1
  obtain ⟨p2, B, q2, hd2, hF2, hp2, hq2⟩ := furthestJob_decomposition dist jobs2 hne2
  have hA : A ∈ jobs1 := by rw [hd1]; simp
  have hB2 : B ∈ jobs2 := by rw [hd2]; simp
  have hB : B ∈ jobs1 := hperm.mem_iff.2 hB2
  have hmaxA : ∀ K ∈ jobs1, dist BASE_CITY K.city ≤ dist BASE_CITY A.city :=
    furthestJob_max hF1
  have hmaxB : ∀ K ∈ jobs1, dist BASE_CITY K.city ≤ dist BASE_CITY B.city :=
    fun K hK => furthestJob_max hF2 K (hperm.mem_iff.1 hK)
  have hAB : A = B := hunique A hA B hB hmaxA hmaxB
  subst hAB
  refine ⟨by rw [hF1, hF2], fun r v => ?_⟩
  rw [setValue_mem_iff_exists toUpperCase dist jobs1 _ hlen hF1 r v,
    setValue_mem_iff_exists toUpperCase dist jobs2 _ hlen2 hF2 r v]
  constructor
  · rintro ⟨J, hJ, h⟩
    exact ⟨J, hperm.mem_iff.1 hJ, h⟩
  · rintro ⟨J, hJ, h⟩
    exact ⟨J, hperm.mem_iff.2 hJ, h⟩

/-- Witness of C19 on the example plan and its reverse: row 4 receives 140 in both
orders. -/
theorem written_values_independent_of_order_witness :
    (examplePlan.Perm examplePlan.reverse ∧ 2 ≤ examplePlan.length ∧
      ∀ A ∈ examplePlan, ∀ B ∈ examplePlan,
        (∀ K ∈ examplePlan,
          exampleDistance BASE_CITY K.city ≤ exampleDistance BASE_CITY A.city) →
        (∀ K ∈ examplePlan,
          exampleDistance BASE_CITY K.city ≤ exampleDistance BASE_CITY B.city) → A = B) ∧
    (Effect.setValue 4 (.number 140) ∈
        processDailyJobs asciiToUpperCase exampleDistance examplePlan ↔
      Effect.setValue 4 (.number 140) ∈
        processDailyJobs asciiToUpperCase exampleDistance examplePlan.reverse) :=
  ⟨⟨(List.reverse_perm _).symm, by decide, by decide⟩,
    (written_values_independent_of_order asciiToUpperCase exampleDistance examplePlan
      examplePlan.reverse (List.reverse_perm _).symm (by decide) (by decide)).2 4
        (.number 140)⟩


/-- C20: with the shipped `DISTANCES` table, whose reference distances are at most 70 km,
`calculateFullServiceValue` never returns "Outside rate table": its result is the tag
"City not in fixed rate table" or one of the numbers 140, 260, 290, 384. -/
theorem full_value_range (toUpperCase : String → String) (city notes : String) :
    (∀ entry ∈ DISTANCES, entry.2 ≤ 70) ∧
    calculateFullServiceValue toUpperCase city notes ≠ .text "Outside rate table" ∧
    (calculateFullServiceValue toUpperCase city notes = .text "City not in fixed rate table" ∨
      calculateFullServiceValue toUpperCase city notes = .number 140 ∨
      calculateFullServiceValue toUpperCase city notes = .number 260 ∨
      calculateFullServiceValue toUpperCase city notes = .number 290 ∨
      calculateFullServiceValue toUpperCase city notes = .number 384) := by
  have hall : ∀ entry ∈ DISTANCES, entry.2 ≤ 70 := by
    intro entry he
    simp only [DISTANCES, List.mem_cons, List.mem_singleton, List.not_mem_nil, or_false] at he
    rcases he with rfl | rfl | rfl | rfl | rfl | rfl | rfl <;> norm_num
  have hrange : calculateFullServiceValue toUpperCase city notes
        = .text "City not in fixed rate table" ∨
      calculateFullServiceValue toUpperCase city notes = .number 140 ∨
      calculateFullServiceValue toUpperCase city notes = .number 260 ∨
      calculateFullServiceValue toUpperCase city notes = .number 290 ∨
      calculateFullServiceValue toUpperCase city notes = .number 384 := by
    cases hl : DISTANCES.lookup (trim (toUpperCase city)) with
    | none => exact Or.inl (calculateFullServiceValue_of_lookup_none toUpperCase notes hl)
    | some km =>
      have hkm : km ≤ 70 := hall _ (mem_of_lookup_eq_some hl)
      rw [calculateFullServiceValue_of_lookup_some toUpperCase notes hl]
      right
      by_cases hs : trim (toUpperCase notes) = SVD_KEYWORD
      · rw [if_pos hs]
        unfold calculateSvdValue
        by_cases h50 : km ≤ 50
        · rw [if_pos h50]; simp
        · rw [if_neg h50, if_pos (by linarith)]; simp
      · rw [if_neg hs]
        unfold calculateStandardValue
        by_cases h50 : km ≤ 50
        · rw [if_pos h50]; simp
        · rw [if_neg h50, if_pos (by linarith)]; simp
  refine ⟨hall, ?_, hrange⟩
  intro hc
  rw [hc] at hrange
  simp at hrange


/-! ## Properties of the distance lookup -/

theorem getMapsDistance_of_empty (fetch : String → String → FetchOutcome) (now : ℕ)
    (cache : Cache) {origin destination : String} (h : origin = "" ∨ destination = "") :
    getMapsDistance fetch now cache origin destination = ⟨999999999, cache, []⟩ := by
  unfold getMapsDistance
  rw [if_pos h]

theorem getMapsDistance_of_hit (fetch : String → String → FetchOutcome) (now : ℕ)
    (cache : Cache) {origin destination : String} {n : ℕ} (ho : origin ≠ "")
    (hd : destination ≠ "") (h : cacheGet cache now (cacheKey origin destination) = some n) :
    getMapsDistance fetch now cache origin destination = ⟨n, cache, []⟩ := by
  unfold getMapsDistance
  rw [if_neg (by simp [ho, hd])]
  simp only [h]

theorem getMapsDistance_of_miss (fetch : String → String → FetchOutcome) (now : ℕ)
    (cache : Cache) {origin destination : String} (ho : origin ≠ "") (hd : destination ≠ "")
    (h : cacheGet cache now (cacheKey origin destination) = none) :
    getMapsDistance fetch now cache origin destination =
      match tryFetch fetch now cache origin destination with
      | .ok (distance, stored) => ⟨distance, stored, [(origin, destination)]⟩
      | .error _ => ⟨999999999, cache, [(origin, destination)]⟩ := by
  unfold getMapsDistance
  rw [if_neg (by simp [ho, hd])]
  simp only [h]

theorem cacheGet_cachePut (cache : Cache) (now later : ℕ) (key : String) (n ttl : ℕ) :
    cacheGet (cachePut cache now key n ttl) later key =
      if later < now + ttl then some n else none := by
  simp [cacheGet, cachePut, List.lookup]

/-- C14: `getMapsDistance` always returns a number and no exception leaves it. It returns
999999999 when an argument is empty and, on a cache miss, when the request throws, when the
response code is not 200, when the body cannot be read or carries no route distance; it
returns the `distanceMeters` of the service on a 200 response carrying a route, and the
cached number on a hit. -/
theorem getMapsDistance_results (fetch : String → String → FetchOutcome) (now : ℕ)
    (cache : Cache) (origin destination : String) :
    (origin = "" ∨ destination = "" →
      getMapsDistance fetch now cache origin destination = ⟨999999999, cache, []⟩) ∧
    (origin ≠ "" → destination ≠ "" →
      ∀ n, cacheGet cache now (cacheKey origin destination) = some n →
        getMapsDistance fetch now cache origin destination = ⟨n, cache, []⟩) ∧
    (origin ≠ "" → destination ≠ "" →
      cacheGet cache now (cacheKey origin destination) = none →
        (fetch origin destination = .throws →
          (getMapsDistance fetch now cache origin destination).distance = 999999999) ∧
        (∀ responseCode body, fetch origin destination = .response responseCode body →
          responseCode ≠ 200 →
          (getMapsDistance fetch now cache origin destination).distance = 999999999) ∧
        (fetch origin destination = .response 200 .unreadable →
          (getMapsDistance fetch now cache origin destination).distance = 999999999) ∧
        (fetch origin destination = .response 200 .noRoute →
          (getMapsDistance fetch now cache origin destination).distance = 999999999) ∧
        (∀ distanceMeters, fetch origin destination = .response 200 (.route distanceMeters) →
          (getMapsDistance fetch now cache origin destination).distance = distanceMeters) ∧
        ∀ e, tryFetch fetch now cache origin destination = .error e →
          (getMapsDistance fetch now cache origin destination).distance = 999999999) := by
  refine ⟨getMapsDistance_of_empty fetch now cache, ?_, ?_⟩
  · intro ho hd n h
    exact getMapsDistance_of_hit fetch now cache ho hd h
  · intro ho hd hmiss
    rw [getMapsDistance_of_miss fetch now cache ho hd hmiss]
    refine ⟨?_, ?_, ?_, ?_, ?_, ?_⟩
    · intro h
      simp [tryFetch, h]
    · intro responseCode body h hcode
      simp [tryFetch, h, hcode]
    · intro h
      simp [tryFetch, h]
    · intro h
      simp [tryFetch, h]
    · intro distanceMeters h
      simp [tryFetch, h]
    · intro e h
      simp [h]

/-- C15: after a cache miss on which the service answers 200 with a route of `n` metres, the
call returns `n`, has issued one request and has stored `n` under the key of the pair with
a lifetime of 21600 seconds. A later call for the same pair returns `n` without a request
while the entry is present, in particular at any time before `now + 21600` on the cache
left by the first call; a call that finds no entry, as from `now + 21600` on, issues a
request. A call on which the service does not answer 200 with a route leaves the cache
unchanged. -/
theorem cache_round_trip (fetch : String → String → FetchOutcome) (now : ℕ) (cache : Cache)
    (origin destination : String) (n : ℕ) (ho : origin ≠ "") (hd : destination ≠ "")
    (hmiss : cacheGet cache now (cacheKey origin destination) = none)
    (hfetch : fetch origin destination = .response 200 (.route n)) :
    getMapsDistance fetch now cache origin destination =
      ⟨n, cachePut cache now (cacheKey origin destination) n 21600,
        [(origin, destination)]⟩ ∧
    (∀ (fetch2 : String → String → FetchOutcome) (later : ℕ) (cache2 : Cache),
      cacheGet cache2 later (cacheKey origin destination) = some n →
        getMapsDistance fetch2 later cache2 origin destination = ⟨n, cache2, []⟩) ∧
    (∀ (fetch2 : String → String → FetchOutcome) (later : ℕ), later < now + 21600 →
      getMapsDistance fetch2 later
          (getMapsDistance fetch now cache origin destination).cache origin destination =
        ⟨n, (getMapsDistance fetch now cache origin destination).cache, []⟩) ∧
    (∀ (fetch2 : String → String → FetchOutcome) (later : ℕ) (cache2 : Cache),
      cacheGet cache2 later (cacheKey origin destination) = none →
        (getMapsDistance fetch2 later cache2 origin destination).requests =
          [(origin, destination)]) ∧
    (∀ (fetch2 : String → String → FetchOutcome) (later : ℕ), now + 21600 ≤ later →
      (getMapsDistance fetch2 later
          (getMapsDistance fetch now cache origin destination).cache
          origin destination).requests = [(origin, destination)]) ∧
    ∀ (fetch2 : String → String → FetchOutcome) (later : ℕ) (cache2 : Cache)
      (origin2 destination2 : String),
      (∀ m, fetch2 origin2 destination2 ≠ .response 200 (.route m)) →
        (getMapsDistance fetch2 later cache2 origin2 destination2).cache = cache2 := by
  have hfirst : getMapsDistance fetch now cache origin destination =
      ⟨n, cachePut cache now (cacheKey origin destination) n 21600,
        [(origin, destination)]⟩ := by
    rw [getMapsDistance_of_miss fetch now cache ho hd hmiss]
    simp [tryFetch, hfetch]
  have hreq : ∀ (fetch2 : String → String → FetchOutcome) (later : ℕ) (cache2 : Cache),
      cacheGet cache2 later (cacheKey origin destination) = none →
        (getMapsDistance fetch2 later cache2 origin destination).requests =
          [(origin, destination)] := by
    intro fetch2 later cache2 h
    rw [getMapsDistance_of_miss fetch2 later cache2 ho hd h]
    cases tryFetch fetch2 later cache2 origin destination with
    | error e => rfl
    | ok r => rfl
  refine ⟨hfirst, ?_, ?_, hreq, ?_, ?_⟩
  · intro fetch2 later cache2 h
    exact getMapsDistance_of_hit fetch2 later cache2 ho hd h
  · intro fetch2 later hlater
    rw [hfirst]
    apply getMapsDistance_of_hit fetch2 later _ ho hd
    rw [cacheGet_cachePut, if_pos hlater]
  · intro fetch2 later hlater
    rw [hfirst]
    apply hreq
    rw [cacheGet_cachePut, if_neg (by omega)]
  · intro fetch2 later cache2 origin2 destination2 hno
    unfold getMapsDistance
    split_ifs
    · rfl
    · cases hg : cacheGet cache2 later (cacheKey origin2 destination2) with
      | some m => rfl
      | none =>
        simp only []
        unfold tryFetch
        cases hf : fetch2 origin2 destination2 with
        | throws => rfl
        | response responseCode body =>
          by_cases hc : responseCode = 200
          · cases body with
            | unreadable => simp [hc]
            | noRoute => simp [hc]
            | route m => exact absurd (by rw [hf, hc]) (hno m)
          · simp [hc]

/-- Witness of C15: a first lookup of Hamilton from Toronto at time 100 on an empty cache,
answered with 68,000 m. -/
theorem cache_round_trip_witness :
    (("Toronto" : String) ≠ "" ∧ ("Hamilton" : String) ≠ "" ∧
      cacheGet [] 100 (cacheKey "Toronto" "Hamilton") = none ∧
      routeOf 68000 "Toronto" "Hamilton" = .response 200 (.route 68000)) ∧
    getMapsDistance (routeOf 68000) 100 [] "Toronto" "Hamilton" =
      ⟨68000, cachePut [] 100 (cacheKey "Toronto" "Hamilton") 68000 21600,
        [("Toronto", "Hamilton")]⟩ :=
  ⟨⟨by decide, by decide, by decide, by decide⟩,
    (cache_round_trip (routeOf 68000) 100 [] "Toronto" "Hamilton" 68000 (by decide)
      (by decide) (by decide) (by decide)).1⟩

/-- C16: the cache key is not injective on pairs of non-empty names. The pairs
("Минск", "Москва") and ("Минск", "Казань") differ and share one key, as do
("A_B", "C") and ("A", "B_C"); after a lookup of the first pair has stored 717,000 m, a
lookup of the second pair returns 717,000 m from the cache without a request, although the
service would answer 1,535,000 m. -/
theorem cache_key_collision :
    (("Минск", "Москва") : String × String) ≠ ("Минск", "Казань") ∧
    cacheKey "Минск" "Москва" = cacheKey "Минск" "Казань" ∧
    cacheKey "A_B" "C" = cacheKey "A" "B_C" ∧
    getMapsDistance twoCityService 100 [] "Минск" "Москва" =
      ⟨717000, [(cacheKey "Минск" "Москва", ⟨717000, 21700⟩)], [("Минск", "Москва")]⟩ ∧
    getMapsDistance twoCityService 200
        (getMapsDistance twoCityService 100 [] "Минск" "Москва").cache "Минск" "Казань" =
      ⟨717000, [(cacheKey "Минск" "Москва", ⟨717000, 21700⟩)], []⟩ ∧
    twoCityService "Минск" "Казань" = .response 200 (.route 1535000) := by
  refine ⟨by decide, by decide, by decide, by decide, by decide, by decide⟩


/-! ## Properties of the collection of the jobs of the day -/

theorem mem_jobsOfTheDay {toText : CellValue → String}
    {toDateString : CellValue → Option String} {allSheetData : List SheetRow}
    {editedRow : ℕ} {targetTechnician : CellValue} {targetDateString : String} {job : Job} :
    job ∈ jobsOfTheDay toText toDateString allSheetData editedRow targetTechnician
        targetDateString ↔
      ∃ index rowData, allSheetData[index]? = some rowData ∧
        strictEquals (decide (index + 1 = editedRow)) rowData.technician targetTechnician
          = true ∧
        toDateString rowData.date = some targetDateString ∧
        job = ⟨index + 1, trim (toText rowData.city), toText rowData.notes⟩ := by
  unfold jobsOfTheDay
  simp only [List.mem_map, List.mem_filter, Bool.and_eq_true, decide_eq_true_eq, Prod.exists,
    List.mk_mem_enum_iff_getElem?]
  constructor
  · rintro ⟨index, rowData, ⟨hget, hs, hd⟩, rfl⟩
    exact ⟨index, rowData, hget, hs, hd, rfl⟩
  · rintro ⟨index, rowData, hget, hs, hd, rfl⟩
    exact ⟨index, rowData, ⟨hget, hs, hd⟩, rfl⟩

theorem rows_of_jobsOfTheDay_increasing (toText : CellValue → String)
    (toDateString : CellValue → Option String) (allSheetData : List SheetRow)
    (editedRow : ℕ) (targetTechnician : CellValue) (targetDateString : String) :
    ((jobsOfTheDay toText toDateString allSheetData editedRow targetTechnician
      targetDateString).map Job.row).Pairwise (· < ·) := by
  unfold jobsOfTheDay
  rw [List.map_map, List.pairwise_map]
  apply List.Pairwise.filter
  have h : (allSheetData.enum.map Prod.fst).Pairwise (· < ·) := by
    rw [List.enum_map_fst]
    exact List.pairwise_lt_range _
  rw [List.pairwise_map] at h
  exact h.imp (fun {a b} hab => Nat.succ_lt_succ hab)

/-- C17, amended: for an edited row number of at least 1 that exists in the sheet, with a
truthy technician (a non-empty text, a non-zero number, TRUE or a date) and a valid date,
the jobs of the day are exactly the sheet rows whose technician cell is strictly equal to
the technician of the edited row and whose date cell is a valid date with the same date
string, that is the same calendar day. They come in sheet order on distinct rows, each with
its row number, trimmed city text and notes text, and with a configured API key they are the
day plan that is priced. -/
theorem jobs_of_the_day_are_matching_rows (toText : CellValue → String)
    (toDateString : CellValue → Option String) (allSheetData : List SheetRow)
    (editedRow : ℕ) (editedRowData : SheetRow) (day : String) (hpos : 1 ≤ editedRow)
    (hrow : allSheetData[editedRow - 1]? = some editedRowData)
    (htech : truthy editedRowData.technician = true)
    (hdate : toDateString editedRowData.date = some day) :
    (∀ index rowData, allSheetData[index]? = some rowData →
      (⟨index + 1, trim (toText rowData.city), toText rowData.notes⟩ ∈
          jobsOfTheDay toText toDateString allSheetData editedRow editedRowData.technician day ↔
        strictEquals (decide (index + 1 = editedRow)) rowData.technician
          editedRowData.technician = true ∧
        toDateString rowData.date = some day)) ∧
    (∀ job ∈ jobsOfTheDay toText toDateString allSheetData editedRow
        editedRowData.technician day,
      ∃ rowData, allSheetData[job.row - 1]? = some rowData ∧ 1 ≤ job.row ∧
        strictEquals (decide (job.row = editedRow)) rowData.technician
          editedRowData.technician = true ∧
        toDateString rowData.date = toDateString editedRowData.date ∧
        job.city = trim (toText rowData.city) ∧ job.notes = toText rowData.notes) ∧
    ((jobsOfTheDay toText toDateString allSheetData editedRow editedRowData.technician
      day).map Job.row).Pairwise (· < ·) ∧
    ((jobsOfTheDay toText toDateString allSheetData editedRow editedRowData.technician
      day).map Job.row).Nodup ∧
    ∀ (apiKey : String) (toUpperCase : String → String) (dist : String → String → ℕ),
      apiKey ≠ "PASTE_YOUR_API_KEY_HERE" → trim apiKey ≠ "" →
      processEditedRow apiKey toUpperCase toText toDateString dist allSheetData editedRow =
        processDailyJobs toUpperCase dist
          (jobsOfTheDay toText toDateString allSheetData editedRow editedRowData.technician
            day) := by
  have hinc := rows_of_jobsOfTheDay_increasing toText toDateString allSheetData editedRow
    editedRowData.technician day
  refine ⟨?_, ?_, hinc, ?_, ?_⟩
  · intro index rowData hget
    rw [mem_jobsOfTheDay]
    constructor
    · rintro ⟨i, r, hi, hs, hd, heq⟩
      have hidx : index = i := by
        have := congrArg Job.row heq
        simp only at this
        omega
      subst hidx
      rw [hget] at hi
      cases hi
      exact ⟨hs, hd⟩
    · rintro ⟨hs, hd⟩
      exact ⟨index, rowData, hget, hs, hd, rfl⟩
  · intro job hjob
    obtain ⟨i, r, hi, hs, hd, rfl⟩ := mem_jobsOfTheDay.1 hjob
    refine ⟨r, ?_, ?_, ?_, ?_, rfl, rfl⟩
    · simpa using hi
    · simp
    · simpa using hs
    · rw [hd, hdate]
  · exact hinc.imp (fun {a b} hab => Nat.ne_of_lt hab)
  · intro apiKey toUpperCase dist hkey hblank
    unfold processEditedRow
    rw [if_neg (by simp [hkey, hblank]), if_neg (by omega), hrow]
    simp only [htech, hdate]

/-- Witness of C17 as amended on the example sheet, edited on row 4: the jobs of the day are
rows 4 and 6, the two rows of technician Ana on day 20000. -/
theorem jobs_of_the_day_are_matching_rows_witness :
    (1 ≤ 4 ∧
      exampleSheet[4 - 1]? =
        some ⟨.text " Oshawa ", .date 1728000000000, .text "", .text "Ana"⟩ ∧
      truthy (.text "Ana") = true ∧
      exampleDateString (.date 1728000000000) = some "20000") ∧
    jobsOfTheDay exampleText exampleDateString exampleSheet 4 (.text "Ana") "20000" =
      [⟨4, "Oshawa", ""⟩, ⟨6, "Hamilton", ""⟩] ∧
    ((jobsOfTheDay exampleText exampleDateString exampleSheet 4 (.text "Ana") "20000").map
      Job.row).Nodup :=
  ⟨⟨by decide, by decide, by decide, by decide⟩, by decide,
    (jobs_of_the_day_are_matching_rows exampleText exampleDateString exampleSheet 4
      ⟨.text " Oshawa ", .date 1728000000000, .text "", .text "Ana"⟩ "20000" (by decide)
      (by decide) (by decide) (by decide)).2.2.2.1⟩

/-- C17 as stated fails for a technician cell that is not empty but falsy: on the sheet whose
rows 4 and 6 hold the number 0 as technician and valid dates on day 20000, edited on row 4
with a configured API key, the rows 4 and 6 match the technician and the day, yet the run
returns at the validity check and prices no day plan. -/
theorem falsy_technician_counterexample :
    zeroTechnicianSheet[4 - 1]? =
      some ⟨.text " Oshawa ", .date 1728000000000, .text "", .number 0⟩ ∧
    CellValue.number 0 ≠ .text "" ∧ truthy (.number 0) = false ∧
    exampleDateString (.date 1728000000000) = some "20000" ∧
    jobsOfTheDay exampleText exampleDateString zeroTechnicianSheet 4 (.number 0) "20000" =
      [⟨4, "Oshawa", ""⟩, ⟨6, "Hamilton", ""⟩] ∧
    processEditedRow "key" asciiToUpperCase exampleText exampleDateString exampleDistance
      zeroTechnicianSheet 4 = [] ∧
    Effect.getMapsDistance "Toronto" "Oshawa" ∈
      processDailyJobs asciiToUpperCase exampleDistance
        (jobsOfTheDay exampleText exampleDateString zeroTechnicianSheet 4 (.number 0)
          "20000") := by
  refine ⟨by decide, by decide, by decide, by decide, by decide, by decide, ?_⟩
  have e : jobsOfTheDay exampleText exampleDateString zeroTechnicianSheet 4 (.number 0) "20000"
      = [⟨4, "Oshawa", ""⟩, ⟨6, "Hamilton", ""⟩] := by decide
  rw [e, processDailyJobs_of_two_le asciiToUpperCase exampleDistance _
    ⟨⟨6, "Hamilton", ""⟩, 40000⟩ (by decide) (by decide)]
  exact List.mem_append.2 (Or.inl (by decide))

end AttendanceRouting
